import Mathlib

/-!
Verification of the adaptive trial sequencing core of PsychoJS:
a shallow embedding of `src/src/data/MultiStairHandler.js` together with
spec-modelled versions of the collaborators it uses (`QuestHandler`,
`util.shuffle`, `util.repeatEveryElement`, `seedrandom`), and proofs of the
specified properties of construction, response handling, trial selection,
the trial ledger and termination.
-/

set_option maxHeartbeats 1000000
set_option linter.unusedTactic false

namespace PsychoData

/-- JavaScript primitive values stored in ledger entries and data sinks. -/
inductive JsVal where
  | num (n : Int)
  | str (s : String)
  | bool (b : Bool)
deriving DecidableEq, Repr

/-- Trial selection methods (`TrialHandler.Method`). -/
inductive Method where
  | sequential
  | random
  | fullRandom
deriving DecidableEq, Repr

/-- `MultiStairHandler.StaircaseType`. -/
inductive StaircaseType where
  | simple
  | quest
deriving DecidableEq, Repr

/-- JavaScript thrown values: either a plain message, or one of the
`{origin, context, error}` wrapper objects thrown by the handler methods. -/
inductive JsErr where
  | msg (s : String)
  | wrapped (origin context : String) (inner : JsErr)
deriving DecidableEq, Repr

/-- One condition object from the conditions list. A `none` field models a
field that is absent from the JS object, mirroring the `"field" in condition`
checks of `_validateConditions`. -/
structure Condition where
  label : Option String := none
  startVal : Option Int := none
  startValSd : Option Int := none
  nTrials : Option Nat := none
  duplicatedConditionCardinal : Option Nat := none
deriving DecidableEq, Repr

/-- An element of the conditions array: a JS object (`typeof` is "object"),
or any other JS value (`typeof condition !== "object"`). -/
inductive CondItem where
  | obj (c : Condition)
  | nonObject
deriving DecidableEq, Repr

/-- The `conditions` constructor argument: either not an array at all
(`Array.isArray` fails) or an array of items. -/
inductive ConditionsInput where
  | notArray
  | arr (items : List CondItem)
deriving DecidableEq, Repr

/-- A response passed to `addResponse`: a JS number, or an array of numbers. -/
inductive Response where
  | scalar (n : Int)
  | arr (ns : List Int)
deriving DecidableEq, Repr

/-- The validity check of `addResponse` (line 116): the response is `0`, `1`,
or an array whose every element is `0` or `1`
(`response.every(r => [0,1].includes(r))`). -/
def Response.valid : Response → Bool
  | .scalar n => n == 0 || n == 1
  | .arr ns => ns.all (fun r => r == 0 || r == 1)

/-- The scalar values recorded to the experiment data sink for a response:
an array is recorded element by element (`forEach`), a number once. -/
def Response.scalars : Response → List Int
  | .scalar n => [n]
  | .arr ns => ns

/-- Modelled from the spec: `seedrandom` is not under src/. Per §6 a seeded
random generator is a deterministic stream given its seed; we model a
generator state as a natural number advanced by a linear congruential step. -/
def lcg (s : Nat) : Nat := (s * 1103515245 + 12345) % 2147483648

/-- Modelled from the spec: `util.shuffle` is not under src/. Per §6 it takes
a sequence and a generator and returns the sequence in random order,
deterministically for a fixed generator state. We model a select-and-remove
shuffle, structurally recursive on a fuel equal to the list length: draw an
index from the generator, move that element to the front, recurse on the
rest. -/
def shuffleFuel [DecidableEq α] : Nat → List α → Nat → List α × Nat
  | 0, _, g => ([], g)
  | _ + 1, [], g => ([], g)
  | fuel + 1, x :: xs, g =>
    let y := ((x :: xs).get? (g % (xs.length + 1))).getD x
    let p := shuffleFuel fuel ((x :: xs).erase y) (lcg g)
    (y :: p.1, p.2)

/-- Modelled from the spec (§6): the shuffle utility, specialised to full fuel. -/
def shuffle [DecidableEq α] (l : List α) (g : Nat) : List α × Nat :=
  shuffleFuel l.length l g

/-- Modelled from the spec: `util.repeatEveryElement` is not under src/.
Per §4.3 every element is expanded into `n` adjacent repeats. -/
def repeatEveryElement (l : List α) (n : Nat) : List α :=
  l.flatMap (fun x => List.replicate n x)

/-- Modelled from the spec: `QuestHandler` is not under src/. Per §4.2 an
adaptive procedure exposes `addResponse(response, value, isFirstSubmission,
giveToQuest)`, a finished flag, a label (its `name`), a recommended-next-value
query and an enumerable set of user attributes. It is created from its
condition and finishes after its trial budget `nTrials`; early stopping is not
modelled. -/
structure QuestHandler where
  name : String
  varName : String
  startVal : Int
  startValSd : Int
  nTrials : Nat
  duplicatedConditionCardinal : Option Nat
  questResponses : List Int
  trialCount : Nat
deriving DecidableEq, Repr

/-- A placeholder staircase used to totalise list indexing; reachable code
only indexes within bounds. -/
def defaultQuest : QuestHandler :=
  { name := "", varName := "", startVal := 0, startValSd := 0, nTrials := 0,
    duplicatedConditionCardinal := none, questResponses := [], trialCount := 0 }

/-- Modelled from the spec (§4.2): the procedure's finished flag; it finishes
once it has received its trial budget. -/
def QuestHandler.finished (q : QuestHandler) : Bool :=
  q.nTrials ≤ q.trialCount

/-- Modelled from the spec (§4.2): the deterministic recommended-intensity
query (`getQuestValue`). The concrete Bayesian update is swappable; we model
the estimate as the start value stepped up by each incorrect and down by each
correct response that was given to the model. -/
def QuestHandler.getQuestValue (q : QuestHandler) : Int :=
  q.startVal + (q.questResponses.filter (fun r => r == 0)).length
    - (q.questResponses.filter (fun r => r == 1)).length

/-- Modelled from the spec (§4.2): the procedure's own update rule. Each call
is one trial; the response data feed the threshold model only when
`doGiveToQuest` is set. -/
def QuestHandler.addResponse (q : QuestHandler) (response : Response)
    (_value : Option Int) (_doAddData : Bool) (doGiveToQuest : Bool) : QuestHandler :=
  { q with
    trialCount := q.trialCount + 1
    questResponses :=
      if doGiveToQuest then q.questResponses ++ response.scalars else q.questResponses }

/-- Modelled from the spec (§4.2): the enumerable user attributes of a
procedure, exported to the ledger. -/
def questUserAttributes : List String := ["name", "startVal", "startValSd", "nTrials"]

/-- Modelled from the spec (§4.2): reading a user attribute of a procedure
(`this._currentStaircase["_" + attribute]`). -/
def QuestHandler.attrValue (q : QuestHandler) : String → JsVal
  | "startVal" => .num q.startVal
  | "startValSd" => .num q.startValSd
  | "nTrials" => .num (q.nTrials : Int)
  | _ => .str q.name

/-- A snapshot record: the part of the TrialHandler snapshots that
`MultiStairHandler._nextTrial` reads and writes. -/
structure Snapshot where
  finished : Bool := false
  fields : List (String × JsVal) := []
  trialAttributes : List String := []
deriving DecidableEq, Repr

/-- A populated trial ledger entry: the namespaced key/value pairs written by
`_nextTrial` into `this._trialList[t]`. -/
abbrev Entry := List (String × JsVal)

/-- The MultiStairHandler instance state: every field of the JS object that
the methods in `MultiStairHandler.js` read or write, together with the
external collaborators it drives - the experiment data sink
(`psychoJS.experiment.addData`), the debug logger, and the ambient
`Math.random` stream used by the unseeded shuffle. -/
structure MultiStairHandler where
  name : String
  varName : String
  stairType : StaircaseType
  multiMethod : Method
  nTrials : Nat
  duplicates : Nat
  duplicatedTrialCardinal : Nat
  rng : Nat
  ambient : Nat
  staircases : List QuestHandler
  trialKey : List String
  currentPass : List (Option Nat)
  currentStaircase : Option Nat
  finished : Bool
  trialList : List (Option Entry)
  snapshots : List Snapshot
  sink : List (String × JsVal)
  debugLog : List (String × Int)
deriving DecidableEq, Repr

namespace MultiStairHandler

/-- `typeof this._trialList[j] !== "undefined"`: the slot exists and is
populated (out-of-bounds reads yield `undefined` in JS). -/
def slotDefined (tl : List (Option Entry)) (j : Nat) : Bool :=
  match tl.get? j with
  | some (some _) => true
  | _ => false

/-- Index of the first `t` in `[start, start + n)` satisfying `p`:
the JS `forateral` loops of `_nextTrial` that scan for the first matching slot. -/
def firstIdxFrom (p : Nat → Bool) : Nat → Nat → Option Nat
  | 0, _ => none
  | n + 1, start => if p start then some start else firstIdxFrom p n (start + 1)

/-- The scan of `_nextTrial` lines 362-364: the first undefined slot of the
trial ledger. -/
def firstUndefinedIdx (tl : List (Option Entry)) : Option Nat :=
  firstIdxFrom (fun t => !(slotDefined tl t)) tl.length 0

/-- The scan of `_nextTrial` lines 331-334: the first `t < snapshots.length - 1`
whose successor ledger slot `t + 1` is undefined. -/
def backfillIdx (snapLen : Nat) (tl : List (Option Entry)) : Option Nat :=
  firstIdxFrom (fun t => !(slotDefined tl (t + 1))) (snapLen - 1) 0

/-- The ledger entry built in `_nextTrial` lines 366-381: the recommended
value under the variable name and `intensity`, then each user attribute of the
selected staircase, with `name` exported as `label`. -/
def mkEntry (hName vName : String) (q : QuestHandler) (value : Int) : Entry :=
  [(hName ++ "." ++ vName, JsVal.num value), (hName ++ ".intensity", JsVal.num value)]
    ++ questUserAttributes.filterMap (fun a =>
        if a == "name" then some (hName ++ ".label", JsVal.str q.name)
        else if a == "trialList" || a == "extraInfo" then none
        else some (hName ++ "." ++ a, q.attrValue a))

/-- The snapshot update of `_nextTrial` lines 383-408: mirror the same fields
into the snapshot and record the touched field names. -/
def updateSnapshot (hName vName : String) (q : QuestHandler) (value : Int)
    (snap : Snapshot) : Snapshot :=
  let e := mkEntry hName vName q value
  { snap with
    fields := snap.fields ++ e
    trialAttributes := snap.trialAttributes ++ e.map Prod.fst }

/-- `_nextTrial` lines 361-411: write value and attributes into the first
undefined trial ledger slot and, if a snapshot exists for that slot, mirror
them there. -/
def fillTrialSlot (s : MultiStairHandler) (q : QuestHandler) (value : Int) :
    MultiStairHandler :=
  match firstUndefinedIdx s.trialList with
  | none => s
  | some t =>
    let e := mkEntry s.name s.varName q value
    match s.snapshots.get? t with
    | none => { s with trialList := s.trialList.set t (some e) }
    | some snap =>
      { s with
        trialList := s.trialList.set t (some e)
        snapshots := s.snapshots.set t (updateSnapshot s.name s.varName q value snap) }

/-- `_nextTrial` lines 330-339: on termination, set the finished flag of the
snapshot at the first index whose successor ledger slot is undefined. -/
def backfillFinished (s : MultiStairHandler) : MultiStairHandler :=
  match backfillIdx s.snapshots.length s.trialList with
  | none => s
  | some t =>
    let snap := s.snapshots.getD t {}
    { s with snapshots := s.snapshots.set t { snap with finished := true } }

/-- `this._staircases.filter(handler => !handler.finished)` with list
positions standing for the JS object references. -/
def unfinishedIdxs (qs : List QuestHandler) : List Nat :=
  (List.range qs.length).filter (fun i => !(qs.getD i defaultQuest).finished)

/-- The pass-rebuilding part of `_nextTrial` (lines 286-318): when the current
pass is empty, rebuild it from the unfinished staircases; `SEQUENTIAL` keeps
construction order, `RANDOM` shuffles with the seeded generator, and
`FULL_RANDOM` advances the duplication cardinal, pops the next trial key and
selects the single matching staircase (by name, and by duplication cardinal
when every staircase carries one). -/
def rebuildPass (s : MultiStairHandler) : MultiStairHandler :=
  if s.currentPass.isEmpty then
    let pass := unfinishedIdxs s.staircases
    match s.multiMethod with
    | .sequential => { s with currentPass := pass.map some }
    | .random =>
      let p := shuffle pass s.rng
      { s with currentPass := p.1.map some, rng := p.2 }
    | .fullRandom =>
      if pass.isEmpty then { s with currentPass := [] }
      else
        let card := s.duplicatedTrialCardinal % s.duplicates + 1
        let key := s.trialKey.head?
        let rest := s.trialKey.tail
        let idx :=
          if s.staircases.all (fun q => q.duplicatedConditionCardinal.isSome) then
            firstIdxFrom (fun i =>
              some (s.staircases.getD i defaultQuest).name == key &&
                (s.staircases.getD i defaultQuest).duplicatedConditionCardinal == some card)
              s.staircases.length 0
          else
            firstIdxFrom (fun i => some (s.staircases.getD i defaultQuest).name == key)
              s.staircases.length 0
        { s with duplicatedTrialCardinal := card, trialKey := rest, currentPass := [idx] }
  else s

/-- `_nextTrial` lines 286-322: rebuild the pass if needed, then shift the
next staircase off the front of the pass into `currentStaircase` (shifting an
empty pass, or a pass holding an undefined entry, yields `undefined`). -/
def selectStage (s : MultiStairHandler) : MultiStairHandler :=
  let s1 := rebuildPass s
  { s1 with
    currentStaircase := s1.currentPass.head?.getD none
    currentPass := s1.currentPass.tail }

/-- `_nextTrial` (lines 281-421): rebuild the pass if needed, shift the next
staircase off the pass, then either take the termination branch (mark finished
and backfill the snapshot flag) or log the selection and write the recommended
value into the trial ledger. -/
def nextTrial (s : MultiStairHandler) : MultiStairHandler :=
  let s2 := selectStage s
  match s2.currentStaircase with
  | none => backfillFinished { s2 with finished := true }
  | some i =>
    let q := s2.staircases.getD i defaultQuest
    let value := q.getQuestValue
    fillTrialSlot { s2 with debugLog := s2.debugLog ++ [(q.name, value)] } q value

/-- The `{origin, context, error}` object thrown by `addResponse` on an
invalid response (lines 118-122). -/
def validationError : JsErr :=
  .wrapped "MultiStairHandler.addResponse" "when adding a trial response"
    (.msg "the response must be either 0 or 1")

/-- `addResponse` lines 125-129: record each raw response scalar to the
experiment data sink under the `<name>.response` key. -/
def recordResponse (s : MultiStairHandler) (r : Response) : MultiStairHandler :=
  { s with sink := s.sink ++ r.scalars.map (fun v => (s.name ++ ".response", JsVal.num v)) }

/-- `addResponse` lines 131-144: when the handler is not finished, forward the
response to the current staircase and move to the next trial. Calling into an
undefined current staircase raises a JS `TypeError`. -/
def processResponse (s : MultiStairHandler) (r : Response) (value : Option Int)
    (doGiveToQuest : Bool) : Except JsErr MultiStairHandler :=
  if s.finished then .ok s
  else
    match s.currentStaircase with
    | none => .error (.msg "TypeError: undefined current staircase")
    | some i =>
      let q := (s.staircases.getD i defaultQuest).addResponse r value false doGiveToQuest
      .ok (nextTrial { s with staircases := s.staircases.set i q })

/-- `addResponse(response, value, doGiveToQuest)` (lines 113-145): validate
the response, record it to the data sink, and unless finished forward it to
the current staircase and run one trial-selection step. -/
def addResponse (s : MultiStairHandler) (r : Response) (value : Option Int)
    (doGiveToQuest : Bool) : Except JsErr MultiStairHandler :=
  if r.valid then processResponse (recordResponse s r) r value doGiveToQuest
  else .error validationError

end MultiStairHandler

/-- The constructor arguments of `MultiStairHandler` with their JS defaults
(`method = RANDOM`, `nTrials = 50`, `stairType` defaulting to `SIMPLE`,
`duplicates = 1`). -/
structure MSHArgs where
  varName : String := ""
  stairType : StaircaseType := .simple
  conditions : ConditionsInput := .arr [.nonObject]
  method : Method := .random
  nTrials : Nat := 50
  randomSeed : Option Nat := none
  name : String := ""
  duplicates : Nat := 1
deriving DecidableEq, Repr

namespace MultiStairHandler

/-- The per-condition checks of `_validateConditions` (lines 171-194), in
source order: object, `startVal`, `label`, and for QUEST `startValSd`. -/
def condFail (stairType : StaircaseType) : CondItem → Option String
  | .nonObject => some "one of the conditions is not an object"
  | .obj c =>
    if c.startVal.isNone then some "each condition should include a startVal field"
    else if c.label.isNone then some "each condition should include a label field"
    else if stairType == .quest && c.startValSd.isNone then
      some "QUEST conditions must include a startValSd field"
    else none

/-- The first failing condition's message, in list order (the `for` loop of
`_validateConditions`). -/
def firstCondError (stairType : StaircaseType) : List CondItem → Option String
  | [] => none
  | it :: rest =>
    match condFail stairType it with
    | some m => some m
    | none => firstCondError stairType rest

/-- `_validateConditions` (lines 155-204): non-empty array, supported
staircase type, then the per-condition checks; `some` is the message of the
first failure. -/
def validateConditionsCore (conditions : ConditionsInput) (stairType : StaircaseType) :
    Option String :=
  match conditions with
  | .notArray => some "conditions should be a non empty array of objects"
  | .arr items =>
    if items.isEmpty then some "conditions should be a non empty array of objects"
    else if stairType == .simple then some "'simple' staircases are currently not supported"
    else firstCondError stairType items

/-- The condition objects of the conditions input (after validation every
item is an object). -/
def condObjs (conditions : ConditionsInput) : List Condition :=
  match conditions with
  | .notArray => []
  | .arr items =>
    items.filterMap (fun it =>
      match it with
      | .obj c => some c
      | .nonObject => none)

/-- `_prepareStaircases` lines 230-245: the QuestHandler built from one
condition - `label` becomes `name`, and the trial budget defaults to the
coordinator's `nTrials`. -/
def questOfCondition (args : MSHArgs) (c : Condition) : QuestHandler :=
  { name := c.label.getD ""
    varName := args.varName
    startVal := c.startVal.getD 0
    startValSd := c.startValSd.getD 0
    nTrials := c.nTrials.getD args.nTrials
    duplicatedConditionCardinal := c.duplicatedConditionCardinal
    questResponses := []
    trialCount := 0 }

/-- `_prepareStaircases` lines 240-243: each condition that has no
`_duplicatedConditionCardinal` field, or has it equal to `1`, pushes its label
replicated by its trial budget onto the trial key sequence. -/
def baseTrialKey (args : MSHArgs) : List String :=
  (condObjs args.conditions).flatMap (fun c =>
    if c.duplicatedConditionCardinal.isNone || c.duplicatedConditionCardinal == some 1 then
      List.replicate (c.nTrials.getD args.nTrials) (c.label.getD "")
    else [])

/-- `_prepareStaircases` lines 257-258: the trial key sequence built at
construction - the base keys shuffled once with the unseeded (ambient)
generator, then every element expanded into `duplicates` adjacent repeats. -/
def builtTrialKey (args : MSHArgs) (entropy : Nat) : List String :=
  repeatEveryElement (shuffle (baseTrialKey args) entropy).1 args.duplicates

/-- The instance state right after `_prepareStaircases`, before the
constructor's initial `_nextTrial` call: a ledger of `nTrials` undefined slots
(`trialList: Array(nTrials)`), one staircase per condition, the built trial
key sequence, cardinal `0`, and the seeded generator (modelled from the spec:
`seedrandom(seed)` is deterministic in the seed; `seedrandom()` and
`Math.random` draw from the ambient entropy). -/
def initState (args : MSHArgs) (entropy : Nat) : MultiStairHandler :=
  { name := args.name
    varName := args.varName
    stairType := args.stairType
    multiMethod := args.method
    nTrials := args.nTrials
    duplicates := args.duplicates
    duplicatedTrialCardinal := 0
    rng := match args.randomSeed with
           | some sd => sd
           | none => lcg (entropy + 1)
    ambient := (shuffle (baseTrialKey args) entropy).2
    staircases := (condObjs args.conditions).map (questOfCondition args)
    trialKey := builtTrialKey args entropy
    currentPass := []
    currentStaircase := none
    finished := false
    trialList := List.replicate args.nTrials none
    snapshots := []
    sink := []
    debugLog := [] }

/-- The constructor (lines 48-98): validate the conditions (failures are
wrapped by `_validateConditions` and again by `_prepareStaircases`), set up
the staircases and trial key sequence, and run one initial `_nextTrial`. -/
def construct (args : MSHArgs) (entropy : Nat) : Except JsErr MultiStairHandler :=
  match validateConditionsCore args.conditions args.stairType with
  | some m =>
    .error (.wrapped "MultiStairHandler._prepareStaircases" "when preparing the staircases"
      (.wrapped "MultiStairHandler._validateConditions" "when validating the conditions"
        (.msg m)))
  | none => .ok (nextTrial (initState args entropy))

end MultiStairHandler

/-- One `addResponse` call: the response with the optional value override and
the `doGiveToQuest` flag. -/
structure RespCall where
  response : Response
  value : Option Int := none
  doGiveToQuest : Bool := true
deriving DecidableEq, Repr

/-- Feed a sequence of `addResponse` calls to a handler; any thrown error
propagates to the caller. -/
def runCalls (s : MultiStairHandler) : List RespCall → Except JsErr MultiStairHandler
  | [] => .ok s
  | c :: cs =>
    match s.addResponse c.response c.value c.doGiveToQuest with
    | .error e => .error e
    | .ok s1 => runCalls s1 cs

/-- Construct a coordinator and feed it a sequence of responses. -/
def runMSH (args : MSHArgs) (entropy : Nat) (calls : List RespCall) :
    Except JsErr MultiStairHandler :=
  match MultiStairHandler.construct args entropy with
  | .error e => .error e
  | .ok s => runCalls s calls

/-- The observable outputs of a run: the sequence of selected staircase labels
with their recommended values (the debug log of `_nextTrial`) and the trial
ledger. -/
def observables : Except JsErr MultiStairHandler →
    Except JsErr (List (String × Int) × List (Option Entry))
  | .error e => .error e
  | .ok s => .ok (s.debugLog, s.trialList)

end PsychoData

namespace PsychoData

instance {ε α : Type} [DecidableEq ε] [DecidableEq α] : DecidableEq (Except ε α) := fun x y =>
  match x, y with
  | .error a, .error b =>
    if h : a = b then .isTrue (by rw [h])
    else .isFalse (fun hc => h (by cases hc; rfl))
  | .ok a, .ok b =>
    if h : a = b then .isTrue (by rw [h])
    else .isFalse (fun hc => h (by cases hc; rfl))
  | .error _, .ok _ => .isFalse (fun hc => by cases hc)
  | .ok _, .error _ => .isFalse (fun hc => by cases hc)

namespace MultiStairHandler

/-- Total number of trials received so far across all staircases. -/
def countSum (s : MultiStairHandler) : Nat :=
  (s.staircases.map QuestHandler.trialCount).sum

/-- Total trial budget across all staircases. -/
def budgetSum (s : MultiStairHandler) : Nat :=
  (s.staircases.map QuestHandler.nTrials).sum

/-- Replace the two fields that the unseeded ambient generator feeds (the
trial key sequence and the ambient stream state), leaving the rest of the
state alone; used to relate runs that differ only in ambient entropy. -/
def setKeyAmbient (s : MultiStairHandler) (tk : List String) (am : Nat) :
    MultiStairHandler :=
  { s with trialKey := tk, ambient := am }

/-- The run invariant of a coordinator under the `SEQUENTIAL` or `RANDOM`
policies: staircases never exceed their budgets, the current pass holds
distinct references to unfinished staircases, an unfinished coordinator has an
unfinished current staircase that is no longer in the pass, and a finished
coordinator has only finished staircases. -/
structure RunInv (s : MultiStairHandler) : Prop where
  method_ne : s.multiMethod ≠ Method.fullRandom
  counts_le : ∀ q ∈ s.staircases, q.trialCount ≤ q.nTrials
  pass_elems : ∀ x ∈ s.currentPass, ∃ i, x = some i ∧ i < s.staircases.length ∧
    (s.staircases.getD i defaultQuest).finished = false
  pass_nodup : s.currentPass.Nodup
  cur_def : s.finished = false → ∃ i, s.currentStaircase = some i ∧
    i < s.staircases.length ∧ (s.staircases.getD i defaultQuest).finished = false ∧
    some i ∉ s.currentPass
  fin_all : s.finished = true → ∀ q ∈ s.staircases, q.finished = true

end MultiStairHandler

/-- The total trial budget over all conditions of the constructor arguments:
each condition's own budget, defaulting to the coordinator's `nTrials`. -/
def totalBudget (args : MSHArgs) : Nat :=
  ((MultiStairHandler.condObjs args.conditions).map
    (fun c => c.nTrials.getD args.nTrials)).sum

/-- The total trial budget over the conditions that contribute to the trial
key sequence: those with no duplication-cardinal tag or with tag `1`. -/
def contribBudget (args : MSHArgs) : Nat :=
  (((MultiStairHandler.condObjs args.conditions).filter
      (fun c => c.duplicatedConditionCardinal.isNone ||
        c.duplicatedConditionCardinal == some 1)).map
    (fun c => c.nTrials.getD args.nTrials)).sum

/-- Projection of a run result: the finished flag of the coordinator. -/
def exceptFinished (x : Except JsErr MultiStairHandler) : Option Bool :=
  match x with
  | .ok s => some s.finished
  | .error _ => none

/-- Projection of a run result: the trial ledger. -/
def exceptTrialList (x : Except JsErr MultiStairHandler) :
    Option (List (Option Entry)) :=
  match x with
  | .ok s => some s.trialList
  | .error _ => none

/-- Projection of a run result: the external data sink contents. -/
def exceptSink (x : Except JsErr MultiStairHandler) :
    Option (List (String × JsVal)) :=
  match x with
  | .ok s => some s.sink
  | .error _ => none

/-- A QUEST condition labelled "A" with a one-trial budget. -/
def condA1 : Condition :=
  { label := some "A", startVal := some 5, startValSd := some 1, nTrials := some 1 }

/-- A QUEST condition labelled "B" with a one-trial budget. -/
def condB1 : Condition :=
  { label := some "B", startVal := some 3, startValSd := some 1, nTrials := some 1 }

/-- A QUEST condition labelled "A" with a four-trial budget. -/
def condA4 : Condition :=
  { label := some "A", startVal := some 5, startValSd := some 1, nTrials := some 4 }

/-- A QUEST condition labelled "B" with a four-trial budget. -/
def condB4 : Condition :=
  { label := some "B", startVal := some 3, startValSd := some 1, nTrials := some 4 }

/-- Duplicate-tagged copies of a condition "A": cardinal 1 with budget 2, and
cardinal 2 with budget 2. -/
def condA1of2 : Condition :=
  { label := some "A", startVal := some 5, startValSd := some 1, nTrials := some 2,
    duplicatedConditionCardinal := some 1 }

/-- The cardinal-2 copy of condition "A". -/
def condA2of2 : Condition :=
  { label := some "A", startVal := some 5, startValSd := some 1, nTrials := some 2,
    duplicatedConditionCardinal := some 2 }

/-- Two seeded conditions under the fully-randomized policy. -/
def argsFullRandom : MSHArgs :=
  { varName := "v"
    stairType := .quest
    conditions := .arr [.obj condA1, .obj condB1]
    method := .fullRandom
    nTrials := 4
    randomSeed := some 0
    name := "m"
    duplicates := 1 }

/-- One one-trial condition, sequential policy, duplication factor 2, and a
two-slot ledger. -/
def argsSeqDup : MSHArgs :=
  { varName := "v"
    stairType := .quest
    conditions := .arr [.obj condA1]
    method := .sequential
    nTrials := 2
    randomSeed := some 0
    name := "m"
    duplicates := 2 }

/-- The two-condition scenario of spec section 8: conditions "A" and "B" with
four trials each, sequential policy, no duplication. -/
def argsScenario : MSHArgs :=
  { varName := "v"
    stairType := .quest
    conditions := .arr [.obj condA4, .obj condB4]
    method := .sequential
    nTrials := 8
    randomSeed := some 1
    name := "m"
    duplicates := 1 }

/-- Duplicate-tagged condition pair under the fully-randomized policy with
duplication factor 2. -/
def argsTagged : MSHArgs :=
  { varName := "v"
    stairType := .quest
    conditions := .arr [.obj condA1of2, .obj condA2of2]
    method := .fullRandom
    nTrials := 4
    randomSeed := some 0
    name := "m"
    duplicates := 2 }

/-- The coordinator state constructed from the section-8 scenario arguments. -/
def scenarioState : MultiStairHandler :=
  MultiStairHandler.nextTrial (MultiStairHandler.initState argsScenario 0)

/-- The coordinator state constructed from `argsSeqDup`. -/
def seqDupState : MultiStairHandler :=
  MultiStairHandler.nextTrial (MultiStairHandler.initState argsSeqDup 0)

/-- The coordinator state constructed from `argsTagged`. -/
def taggedState : MultiStairHandler :=
  MultiStairHandler.nextTrial (MultiStairHandler.initState argsTagged 0)

/-- A coordinator state about to terminate, with three snapshots on file and
ledger slot 1 still undefined: every staircase has consumed its budget and the
pass is empty. -/
def backfillDemoState : MultiStairHandler :=
  { scenarioState with
    staircases := scenarioState.staircases.map (fun q => { q with trialCount := q.nTrials })
    currentPass := []
    snapshots := [{}, {}, {}] }

/-- A coordinator state already in its terminal state. -/
def finishedDemoState : MultiStairHandler :=
  { scenarioState with finished := true }

/-- A valid correct-response call. -/
def callOne : RespCall := { response := .scalar 1 }

/-- A valid empty-array response call. -/
def callEmptyArr : RespCall := { response := .arr [] }

namespace MultiStairHandler

theorem firstIdxFrom_some_spec (p : Nat → Bool) :
    ∀ n start t, firstIdxFrom p n start = some t →
      start ≤ t ∧ t < start + n ∧ p t = true ∧ ∀ j, start ≤ j → j < t → p j = false := by
  intro n
  induction n with
  | zero => intro start t h; simp [firstIdxFrom] at h
  | succ n ih =>
    intro start t h
    rw [firstIdxFrom] at h
    by_cases hp : p start
    · simp [hp] at h
      subst h
      exact ⟨Nat.le_refl _, by omega, hp, fun j h1 h2 => by omega⟩
    · simp [hp] at h
      obtain ⟨h1, h2, h3, h4⟩ := ih (start + 1) t h
      refine ⟨by omega, by omega, h3, fun j hj1 hj2 => ?_⟩
      by_cases hj : j = start
      · subst hj; exact Bool.eq_false_iff.mpr hp
      · exact h4 j (by omega) hj2

theorem firstIdxFrom_none_spec (p : Nat → Bool) :
    ∀ n start, firstIdxFrom p n start = none →
      ∀ j, start ≤ j → j < start + n → p j = false := by
  intro n
  induction n with
  | zero => intro start _ j h1 h2; omega
  | succ n ih =>
    intro start h j h1 h2
    rw [firstIdxFrom] at h
    by_cases hp : p start
    · simp [hp] at h
    · simp [hp] at h
      by_cases hj : j = start
      · subst hj; exact Bool.eq_false_iff.mpr hp
      · exact ih (start + 1) h j (by omega) (by omega)

theorem firstIdxFrom_eq_some_of (p : Nat → Bool) :
    ∀ n start t, start ≤ t → t < start + n → p t = true →
      (∀ j, start ≤ j → j < t → p j = false) → firstIdxFrom p n start = some t := by
  intro n
  induction n with
  | zero => intro start t h1 h2; omega
  | succ n ih =>
    intro start t h1 h2 h3 h4
    rw [firstIdxFrom]
    by_cases hst : t = start
    · subst hst; simp [h3]
    · have hps : p start = false := h4 start (Nat.le_refl _) (by omega)
      simp [hps]
      exact ih (start + 1) t (by omega) (by omega) h3 (fun j hj1 hj2 => h4 j (by omega) hj2)

end MultiStairHandler

theorem shuffleFuel_perm [DecidableEq α] :
    ∀ (fuel : Nat) (l : List α) (g : Nat), l.length ≤ fuel →
      (shuffleFuel fuel l g).1.Perm l := by
  intro fuel
  induction fuel with
  | zero =>
    intro l g h
    match l with
    | [] => simp [shuffleFuel]
    | x :: xs => simp at h
  | succ fuel ih =>
    intro l g h
    match l with
    | [] => simp [shuffleFuel]
    | x :: xs =>
      have hlt : g % (xs.length + 1) < (x :: xs).length := by
        simp only [List.length_cons]
        exact Nat.mod_lt _ (Nat.succ_pos _)
      have hmem : ((x :: xs).get? (g % (xs.length + 1))).getD x ∈ x :: xs := by
        match hg : (x :: xs).get? (g % (xs.length + 1)) with
        | some a =>
          simp only [Option.getD_some]
          exact List.get?_mem hg
        | none =>
          have := List.get?_eq_none.mp hg
          omega
      have herase : ((x :: xs).erase (((x :: xs).get? (g % (xs.length + 1))).getD x)).length ≤ fuel := by
        rw [List.length_erase_of_mem hmem]
        simp only [List.length_cons] at h ⊢
        omega
      have ihp := ih ((x :: xs).erase (((x :: xs).get? (g % (xs.length + 1))).getD x)) (lcg g) herase
      rw [shuffleFuel]
      exact (ihp.cons _).trans (List.perm_cons_erase hmem).symm

theorem shuffle_perm [DecidableEq α] (l : List α) (g : Nat) : (shuffle l g).1.Perm l :=
  shuffleFuel_perm l.length l g (Nat.le_refl _)

theorem shuffle_length [DecidableEq α] (l : List α) (g : Nat) :
    (shuffle l g).1.length = l.length :=
  (shuffle_perm l g).length_eq

theorem shuffle_mem [DecidableEq α] (l : List α) (g : Nat) (a : α) :
    a ∈ (shuffle l g).1 ↔ a ∈ l :=
  (shuffle_perm l g).mem_iff

theorem shuffle_nodup [DecidableEq α] (l : List α) (g : Nat) (h : l.Nodup) :
    (shuffle l g).1.Nodup :=
  (shuffle_perm l g).nodup_iff.mpr h

theorem shuffle_eq_nil_iff [DecidableEq α] (l : List α) (g : Nat) :
    (shuffle l g).1 = [] ↔ l = [] := by
  constructor
  · intro h
    have := (shuffle_perm l g).length_eq
    rw [h] at this
    exact List.length_eq_zero.mp this.symm
  · intro h
    subst h
    simp [shuffle, shuffleFuel]


theorem list_get?_set_self {α : Type} :
    ∀ (l : List α) (i : Nat) (a : α), i < l.length → (l.set i a).get? i = some a := by
  intro l
  induction l with
  | nil => intro i a h; simp at h
  | cons x xs ih =>
    intro i a h
    cases i with
    | zero => rfl
    | succ n => exact ih n a (by simp only [List.length_cons] at h; omega)

theorem list_get?_set_ne {α : Type} :
    ∀ (l : List α) (i j : Nat) (a : α), i ≠ j → (l.set i a).get? j = l.get? j := by
  intro l
  induction l with
  | nil => intro i j a _; rfl
  | cons x xs ih =>
    intro i j a h
    cases i with
    | zero =>
      cases j with
      | zero => exact absurd rfl h
      | succ m => rfl
    | succ n =>
      cases j with
      | zero => rfl
      | succ m => exact ih n m a (fun hc => h (by rw [hc]))

theorem list_getD_set_self {α : Type} :
    ∀ (l : List α) (i : Nat) (a d : α), i < l.length → (l.set i a).getD i d = a := by
  intro l
  induction l with
  | nil => intro i a d h; simp at h
  | cons x xs ih =>
    intro i a d h
    cases i with
    | zero => rfl
    | succ n => exact ih n a d (by simp only [List.length_cons] at h; omega)

theorem list_getD_set_ne {α : Type} :
    ∀ (l : List α) (i j : Nat) (a d : α), i ≠ j → (l.set i a).getD j d = l.getD j d := by
  intro l
  induction l with
  | nil => intro i j a d _; rfl
  | cons x xs ih =>
    intro i j a d h
    cases i with
    | zero =>
      cases j with
      | zero => exact absurd rfl h
      | succ m => rfl
    | succ n =>
      cases j with
      | zero => rfl
      | succ m => exact ih n m a d (fun hc => h (by rw [hc]))

theorem list_getD_mem {α : Type} :
    ∀ (l : List α) (i : Nat) (d : α), i < l.length → l.getD i d ∈ l := by
  intro l
  induction l with
  | nil => intro i d h; simp at h
  | cons x xs ih =>
    intro i d h
    cases i with
    | zero => exact List.mem_cons_self _ _
    | succ n =>
      exact List.mem_cons_of_mem _ (ih n d (by simp only [List.length_cons] at h; omega))

theorem sum_map_set {α : Type} (f : α → Nat) :
    ∀ (l : List α) (i : Nat) (a d : α), i < l.length →
      ((l.set i a).map f).sum + f (l.getD i d) = (l.map f).sum + f a := by
  intro l
  induction l with
  | nil => intro i a d h; simp at h
  | cons x xs ih =>
    intro i a d h
    cases i with
    | zero =>
      show (f a + (xs.map f).sum) + f x = (f x + (xs.map f).sum) + f a
      omega
    | succ n =>
      show (f x + ((xs.set n a).map f).sum) + f (xs.getD n d) = (f x + (xs.map f).sum) + f a
      have := ih n a d (by simp only [List.length_cons] at h; omega)
      omega

theorem sum_map_lt {α : Type} (f g : α → Nat) :
    ∀ (l : List α) (i : Nat) (d : α), i < l.length →
      (∀ x ∈ l, f x ≤ g x) → f (l.getD i d) < g (l.getD i d) →
      (l.map f).sum < (l.map g).sum := by
  intro l
  induction l with
  | nil => intro i d h _ _; simp at h
  | cons x xs ih =>
    intro i d h hle hlt
    simp only [List.map_cons, List.sum_cons]
    cases i with
    | zero =>
      have hrest : (xs.map f).sum ≤ (xs.map g).sum :=
        List.sum_le_sum (fun y hy => hle y (List.mem_cons_of_mem _ hy))
      have hx : f x < g x := hlt
      omega
    | succ n =>
      have hx : f x ≤ g x := hle x (List.mem_cons_self _ _)
      have hr := ih n d (by simp only [List.length_cons] at h; omega)
        (fun y hy => hle y (List.mem_cons_of_mem _ hy)) hlt
      omega

theorem sum_map_congr {α : Type} (f g : α → Nat) (l : List α)
    (h : ∀ x ∈ l, f x = g x) : (l.map f).sum = (l.map g).sum := by
  induction l with
  | nil => rfl
  | cons x xs ih =>
    simp only [List.map_cons, List.sum_cons]
    rw [h x (List.mem_cons_self _ _), ih (fun y hy => h y (List.mem_cons_of_mem _ hy))]


namespace MultiStairHandler

theorem condFail_isSome_iff (st : StaircaseType) (it : CondItem) :
    (∃ m, condFail st it = some m) ↔
      (it = .nonObject ∨ (∃ c, it = .obj c ∧ (c.startVal = none ∨ c.label = none ∨
        (st = .quest ∧ c.startValSd = none)))) := by
  cases it with
  | nonObject => simp [condFail]
  | obj c =>
    simp only [condFail, CondItem.obj.injEq]
    by_cases h1 : c.startVal.isNone
    · simp [h1, Option.isNone_iff_eq_none.mp h1]
    · rw [if_neg h1]
      have h1' : ¬ c.startVal = none := fun hc => h1 (by simp [hc])
      by_cases h2 : c.label.isNone
      · simp [h2, h1', Option.isNone_iff_eq_none.mp h2]
      · rw [if_neg h2]
        have h2' : ¬ c.label = none := fun hc => h2 (by simp [hc])
        by_cases h3 : st == .quest && c.startValSd.isNone
        · rw [if_pos h3]
          simp only [Bool.and_eq_true, beq_iff_eq] at h3
          simp [h1', h2', h3.1, Option.isNone_iff_eq_none.mp h3.2]
        · rw [if_neg h3]
          simp only [Bool.and_eq_true, beq_iff_eq, not_and] at h3
          constructor
          · rintro ⟨m, hm⟩; cases hm
          · rintro (h | ⟨c', hc', hbad⟩)
            · cases h
            · cases hc'
              rcases hbad with hb | hb | ⟨hq, hsd⟩
              · exact absurd hb h1'
              · exact absurd hb h2'
              · have := h3 hq
                rw [hsd] at this
                simp at this

theorem firstCondError_isSome_iff (st : StaircaseType) :
    ∀ items, (∃ m, firstCondError st items = some m) ↔
      ∃ it ∈ items, ∃ m, condFail st it = some m := by
  intro items
  induction items with
  | nil => simp [firstCondError]
  | cons it rest ih =>
    rw [firstCondError]
    cases h : condFail st it with
    | some m => simp [h]
    | none => simp [h, ih]

theorem validateCore_isSome_iff (conds : ConditionsInput) (st : StaircaseType) :
    (∃ m, validateConditionsCore conds st = some m) ↔
      (conds = .notArray ∨ conds = .arr [] ∨ st = .simple ∨
        (∃ items it, conds = .arr items ∧ it ∈ items ∧
          (it = .nonObject ∨ (∃ c, it = .obj c ∧ (c.startVal = none ∨ c.label = none ∨
            (st = .quest ∧ c.startValSd = none)))))) := by
  cases conds with
  | notArray => simp [validateConditionsCore]
  | arr items =>
    simp only [validateConditionsCore]
    by_cases he : items.isEmpty
    · have : items = [] := List.isEmpty_iff.mp he
      subst this
      simp
    · rw [if_neg he]
      have hne : ¬ (ConditionsInput.arr items = ConditionsInput.arr []) := by
        intro hc
        cases hc
        exact he rfl
      by_cases hs : st == .simple
      · rw [if_pos hs]
        have : st = .simple := beq_iff_eq.mp hs
        simp [this]
      · rw [if_neg hs]
        have hs' : ¬ st = .simple := fun hc => hs (by simp [hc])
        rw [firstCondError_isSome_iff]
        constructor
        · rintro ⟨it, hit, hsome⟩
          refine Or.inr (Or.inr (Or.inr ⟨items, it, rfl, hit, ?_⟩))
          exact (condFail_isSome_iff st it).mp hsome
        · rintro (h | h | h | ⟨items', it, hq, hit, hbad⟩)
          · cases h
          · exact absurd h hne
          · exact absurd h hs'
          · cases hq
            exact ⟨it, hit, (condFail_isSome_iff st it).mpr hbad⟩

/-- C8: construction fails exactly when the condition list is not an array,
is empty, contains a non-object item or a condition missing `startVal` or
`label`, the staircase kind is the unsupported simple kind, or a QUEST
condition lacks `startValSd`; every such failure is the configuration error
wrapped with the origin and context of `_validateConditions` and
`_prepareStaircases`. -/
theorem construct_configuration_error (args : MSHArgs) (entropy : Nat) :
    ((∃ err, construct args entropy = .error err) ↔
      (args.conditions = .notArray ∨ args.conditions = .arr [] ∨
        args.stairType = .simple ∨
        (∃ items it, args.conditions = .arr items ∧ it ∈ items ∧
          (it = .nonObject ∨ (∃ c, it = .obj c ∧ (c.startVal = none ∨ c.label = none ∨
            (args.stairType = .quest ∧ c.startValSd = none))))))) ∧
    (∀ err, construct args entropy = .error err →
      ∃ inner, err = .wrapped "MultiStairHandler._prepareStaircases"
        "when preparing the staircases"
        (.wrapped "MultiStairHandler._validateConditions"
          "when validating the conditions" inner)) := by
  constructor
  · rw [← validateCore_isSome_iff args.conditions args.stairType]
    unfold construct
    cases h : validateConditionsCore args.conditions args.stairType with
    | some m => simp [h]
    | none => simp [h]
  · intro err herr
    unfold construct at herr
    cases h : validateConditionsCore args.conditions args.stairType with
    | some m =>
      rw [h] at herr
      exact ⟨.msg m, by cases herr; rfl⟩
    | none =>
      rw [h] at herr
      cases herr

/-- C8 witness: the failure modes and error shape evaluated on a concrete
argument record (an empty condition list with the QUEST staircase kind). -/
theorem construct_configuration_error_witness :
    ((∃ err, construct { stairType := .quest, conditions := .arr [] } 0 = .error err) ↔
      (({ stairType := .quest, conditions := .arr [] } : MSHArgs).conditions = .notArray ∨
        ({ stairType := .quest, conditions := .arr [] } : MSHArgs).conditions = .arr [] ∨
        ({ stairType := .quest, conditions := .arr [] } : MSHArgs).stairType = .simple ∨
        (∃ items it,
          ({ stairType := .quest, conditions := .arr [] } : MSHArgs).conditions = .arr items ∧
          it ∈ items ∧
          (it = .nonObject ∨ (∃ c, it = .obj c ∧ (c.startVal = none ∨ c.label = none ∨
            (({ stairType := .quest, conditions := .arr [] } : MSHArgs).stairType = .quest ∧
              c.startValSd = none))))))) ∧
    (∀ err, construct { stairType := .quest, conditions := .arr [] } 0 = .error err →
      ∃ inner, err = .wrapped "MultiStairHandler._prepareStaircases"
        "when preparing the staircases"
        (.wrapped "MultiStairHandler._validateConditions"
          "when validating the conditions" inner)) :=
  construct_configuration_error { stairType := .quest, conditions := .arr [] } 0

end MultiStairHandler

namespace MultiStairHandler

theorem rebuildPass_staircases (s : MultiStairHandler) :
    (rebuildPass s).staircases = s.staircases := by
  unfold rebuildPass
  repeat' first | split | (dsimp only []; split)
  all_goals rfl

theorem rebuildPass_trialList (s : MultiStairHandler) :
    (rebuildPass s).trialList = s.trialList := by
  unfold rebuildPass
  repeat' first | split | (dsimp only []; split)
  all_goals rfl

theorem rebuildPass_snapshots (s : MultiStairHandler) :
    (rebuildPass s).snapshots = s.snapshots := by
  unfold rebuildPass
  repeat' first | split | (dsimp only []; split)
  all_goals rfl

theorem rebuildPass_finished (s : MultiStairHandler) :
    (rebuildPass s).finished = s.finished := by
  unfold rebuildPass
  repeat' first | split | (dsimp only []; split)
  all_goals rfl

theorem rebuildPass_sink (s : MultiStairHandler) :
    (rebuildPass s).sink = s.sink := by
  unfold rebuildPass
  repeat' first | split | (dsimp only []; split)
  all_goals rfl

theorem rebuildPass_debugLog (s : MultiStairHandler) :
    (rebuildPass s).debugLog = s.debugLog := by
  unfold rebuildPass
  repeat' first | split | (dsimp only []; split)
  all_goals rfl

theorem rebuildPass_multiMethod (s : MultiStairHandler) :
    (rebuildPass s).multiMethod = s.multiMethod := by
  unfold rebuildPass
  repeat' first | split | (dsimp only []; split)
  all_goals rfl

theorem rebuildPass_name (s : MultiStairHandler) :
    (rebuildPass s).name = s.name := by
  unfold rebuildPass
  repeat' first | split | (dsimp only []; split)
  all_goals rfl

theorem rebuildPass_varName (s : MultiStairHandler) :
    (rebuildPass s).varName = s.varName := by
  unfold rebuildPass
  repeat' first | split | (dsimp only []; split)
  all_goals rfl

theorem rebuildPass_duplicates (s : MultiStairHandler) :
    (rebuildPass s).duplicates = s.duplicates := by
  unfold rebuildPass
  repeat' first | split | (dsimp only []; split)
  all_goals rfl

theorem selectStage_staircases (s : MultiStairHandler) :
    (selectStage s).staircases = s.staircases := rebuildPass_staircases s

theorem selectStage_trialList (s : MultiStairHandler) :
    (selectStage s).trialList = s.trialList := rebuildPass_trialList s

theorem selectStage_snapshots (s : MultiStairHandler) :
    (selectStage s).snapshots = s.snapshots := rebuildPass_snapshots s

theorem selectStage_finished (s : MultiStairHandler) :
    (selectStage s).finished = s.finished := rebuildPass_finished s

theorem selectStage_sink (s : MultiStairHandler) :
    (selectStage s).sink = s.sink := rebuildPass_sink s

theorem selectStage_debugLog (s : MultiStairHandler) :
    (selectStage s).debugLog = s.debugLog := rebuildPass_debugLog s

theorem selectStage_multiMethod (s : MultiStairHandler) :
    (selectStage s).multiMethod = s.multiMethod := rebuildPass_multiMethod s

theorem selectStage_name (s : MultiStairHandler) :
    (selectStage s).name = s.name := rebuildPass_name s

theorem selectStage_varName (s : MultiStairHandler) :
    (selectStage s).varName = s.varName := rebuildPass_varName s

theorem selectStage_duplicates (s : MultiStairHandler) :
    (selectStage s).duplicates = s.duplicates := rebuildPass_duplicates s

theorem fillTrialSlot_staircases (s : MultiStairHandler) (q : QuestHandler) (v : Int) :
    (fillTrialSlot s q v).staircases = s.staircases := by
  unfold fillTrialSlot
  repeat' first | split | (dsimp only []; split)
  all_goals rfl

theorem fillTrialSlot_finished (s : MultiStairHandler) (q : QuestHandler) (v : Int) :
    (fillTrialSlot s q v).finished = s.finished := by
  unfold fillTrialSlot
  repeat' first | split | (dsimp only []; split)
  all_goals rfl

theorem fillTrialSlot_currentPass (s : MultiStairHandler) (q : QuestHandler) (v : Int) :
    (fillTrialSlot s q v).currentPass = s.currentPass := by
  unfold fillTrialSlot
  repeat' first | split | (dsimp only []; split)
  all_goals rfl

theorem fillTrialSlot_currentStaircase (s : MultiStairHandler) (q : QuestHandler) (v : Int) :
    (fillTrialSlot s q v).currentStaircase = s.currentStaircase := by
  unfold fillTrialSlot
  repeat' first | split | (dsimp only []; split)
  all_goals rfl

theorem fillTrialSlot_sink (s : MultiStairHandler) (q : QuestHandler) (v : Int) :
    (fillTrialSlot s q v).sink = s.sink := by
  unfold fillTrialSlot
  repeat' first | split | (dsimp only []; split)
  all_goals rfl

theorem fillTrialSlot_multiMethod (s : MultiStairHandler) (q : QuestHandler) (v : Int) :
    (fillTrialSlot s q v).multiMethod = s.multiMethod := by
  unfold fillTrialSlot
  repeat' first | split | (dsimp only []; split)
  all_goals rfl

theorem fillTrialSlot_duplicatedTrialCardinal (s : MultiStairHandler) (q : QuestHandler) (v : Int) :
    (fillTrialSlot s q v).duplicatedTrialCardinal = s.duplicatedTrialCardinal := by
  unfold fillTrialSlot
  repeat' first | split | (dsimp only []; split)
  all_goals rfl

theorem backfillFinished_trialList (s : MultiStairHandler) :
    (backfillFinished s).trialList = s.trialList := by
  unfold backfillFinished
  repeat' first | split | (dsimp only []; split)
  all_goals rfl

theorem backfillFinished_staircases (s : MultiStairHandler) :
    (backfillFinished s).staircases = s.staircases := by
  unfold backfillFinished
  repeat' first | split | (dsimp only []; split)
  all_goals rfl

theorem backfillFinished_finished (s : MultiStairHandler) :
    (backfillFinished s).finished = s.finished := by
  unfold backfillFinished
  repeat' first | split | (dsimp only []; split)
  all_goals rfl

theorem backfillFinished_sink (s : MultiStairHandler) :
    (backfillFinished s).sink = s.sink := by
  unfold backfillFinished
  repeat' first | split | (dsimp only []; split)
  all_goals rfl

theorem backfillFinished_currentPass (s : MultiStairHandler) :
    (backfillFinished s).currentPass = s.currentPass := by
  unfold backfillFinished
  repeat' first | split | (dsimp only []; split)
  all_goals rfl

theorem backfillFinished_currentStaircase (s : MultiStairHandler) :
    (backfillFinished s).currentStaircase = s.currentStaircase := by
  unfold backfillFinished
  repeat' first | split | (dsimp only []; split)
  all_goals rfl

theorem backfillFinished_multiMethod (s : MultiStairHandler) :
    (backfillFinished s).multiMethod = s.multiMethod := by
  unfold backfillFinished
  repeat' first | split | (dsimp only []; split)
  all_goals rfl

theorem backfillFinished_debugLog (s : MultiStairHandler) :
    (backfillFinished s).debugLog = s.debugLog := by
  unfold backfillFinished
  repeat' first | split | (dsimp only []; split)
  all_goals rfl

theorem fillTrialSlot_debugLog (s : MultiStairHandler) (q : QuestHandler) (v : Int) :
    (fillTrialSlot s q v).debugLog = s.debugLog := by
  unfold fillTrialSlot
  repeat' first | split | (dsimp only []; split)
  all_goals rfl

theorem slotDefined_false_get? (tl : List (Option Entry)) (t : Nat)
    (hlt : t < tl.length) (h : slotDefined tl t = false) : tl.get? t = some none := by
  cases hg : tl.get? t with
  | none =>
    have := List.get?_eq_none.mp hg
    omega
  | some v =>
    cases v with
    | none => rfl
    | some e =>
      unfold slotDefined at h
      rw [hg] at h
      cases h

theorem slotDefined_true_get? (tl : List (Option Entry)) (t : Nat)
    (h : slotDefined tl t = true) : ∃ e, tl.get? t = some (some e) := by
  unfold slotDefined at h
  cases hg : tl.get? t with
  | none => rw [hg] at h; cases h
  | some v =>
    cases v with
    | none => rw [hg] at h; cases h
    | some e => exact ⟨e, rfl⟩

theorem firstUndefinedIdx_spec (tl : List (Option Entry)) (t : Nat)
    (h : firstUndefinedIdx tl = some t) :
    t < tl.length ∧ slotDefined tl t = false ∧ ∀ j, j < t → slotDefined tl j = true := by
  obtain ⟨h1, h2, h3, h4⟩ := firstIdxFrom_some_spec _ _ _ _ h
  refine ⟨by omega, by simpa using h3, fun j hj => ?_⟩
  have := h4 j (Nat.zero_le _) hj
  simpa using this

theorem fillTrialSlot_trialList_spec (s : MultiStairHandler) (q : QuestHandler) (v : Int) :
    (fillTrialSlot s q v).trialList = s.trialList ∨
    ∃ t e, s.trialList.get? t = some none ∧
      (∀ j, j < t → slotDefined s.trialList j = true) ∧
      (fillTrialSlot s q v).trialList = s.trialList.set t (some e) := by
  unfold fillTrialSlot
  cases hf : firstUndefinedIdx s.trialList with
  | none => left; rfl
  | some t =>
    right
    obtain ⟨hlt, hundef, hprev⟩ := firstUndefinedIdx_spec _ _ hf
    refine ⟨t, mkEntry s.name s.varName q v,
      slotDefined_false_get? _ _ hlt hundef, hprev, ?_⟩
    dsimp only []
    split
    · rfl
    · rfl

/-- C3: each trial-selection step either leaves the trial ledger unchanged or
writes exactly the first (lowest-index) undefined slot - one with every
earlier slot already populated - so slots are populated strictly in index
order, and no populated slot is ever changed. -/
theorem ledger_write_once (s : MultiStairHandler) :
    (∀ j, slotDefined s.trialList j = true →
      (nextTrial s).trialList.get? j = s.trialList.get? j) ∧
    ((nextTrial s).trialList = s.trialList ∨
      ∃ t e, s.trialList.get? t = some none ∧
        (∀ j, j < t → slotDefined s.trialList j = true) ∧
        (nextTrial s).trialList = s.trialList.set t (some e)) := by
  have hmain : (nextTrial s).trialList = s.trialList ∨
      ∃ t e, s.trialList.get? t = some none ∧
        (∀ j, j < t → slotDefined s.trialList j = true) ∧
        (nextTrial s).trialList = s.trialList.set t (some e) := by
    unfold nextTrial
    cases hcur : (selectStage s).currentStaircase with
    | none =>
      simp only [hcur]
      left
      rw [backfillFinished_trialList]
      exact selectStage_trialList s
    | some i =>
      simp only [hcur]
      have hres := fillTrialSlot_trialList_spec
        { selectStage s with
            debugLog := (selectStage s).debugLog ++
              [(((selectStage s).staircases.getD i defaultQuest).name,
                ((selectStage s).staircases.getD i defaultQuest).getQuestValue)] }
        ((selectStage s).staircases.getD i defaultQuest)
        ((selectStage s).staircases.getD i defaultQuest).getQuestValue
      rw [show ({ selectStage s with
            debugLog := (selectStage s).debugLog ++
              [(((selectStage s).staircases.getD i defaultQuest).name,
                ((selectStage s).staircases.getD i defaultQuest).getQuestValue)] } :
          MultiStairHandler).trialList = s.trialList from selectStage_trialList s] at hres
      dsimp only [] at hres
      rw [hcur] at hres
      exact hres
  refine ⟨?_, hmain⟩
  intro j hj
  rcases hmain with h | ⟨t, e, ht, _, hset⟩
  · rw [h]
  · rw [hset]
    have hne : t ≠ j := by
      intro hc
      subst hc
      unfold slotDefined at hj
      rw [ht] at hj
      cases hj
    exact list_get?_set_ne _ _ _ _ hne

/-- C3 witness: the ledger write behavior evaluated at the concrete
section-8 scenario coordinator state. -/
theorem ledger_write_once_witness :
    (∀ j, slotDefined scenarioState.trialList j = true →
      (nextTrial scenarioState).trialList.get? j = scenarioState.trialList.get? j) ∧
    ((nextTrial scenarioState).trialList = scenarioState.trialList ∨
      ∃ t e, scenarioState.trialList.get? t = some none ∧
        (∀ j, j < t → slotDefined scenarioState.trialList j = true) ∧
        (nextTrial scenarioState).trialList = scenarioState.trialList.set t (some e)) :=
  ledger_write_once scenarioState

end MultiStairHandler

namespace MultiStairHandler

theorem backfillFinished_duplicatedTrialCardinal (s : MultiStairHandler) :
    (backfillFinished s).duplicatedTrialCardinal = s.duplicatedTrialCardinal := by
  unfold backfillFinished
  repeat' first | split | (dsimp only []; split)
  all_goals rfl

theorem nextTrial_cardinal (s : MultiStairHandler) :
    (nextTrial s).duplicatedTrialCardinal = (rebuildPass s).duplicatedTrialCardinal := by
  unfold nextTrial
  cases hcur : (selectStage s).currentStaircase with
  | none =>
    simp only [hcur]
    rw [backfillFinished_duplicatedTrialCardinal]
    rfl
  | some i =>
    simp only [hcur]
    rw [fillTrialSlot_duplicatedTrialCardinal]
    rfl

theorem rebuildPass_fullRandom_cardinal (s : MultiStairHandler)
    (hm : s.multiMethod = .fullRandom) (hp : s.currentPass = [])
    (hu : unfinishedIdxs s.staircases ≠ []) :
    (rebuildPass s).duplicatedTrialCardinal = s.duplicatedTrialCardinal % s.duplicates + 1 := by
  unfold rebuildPass
  rw [hp, hm]
  have hie : (unfinishedIdxs s.staircases).isEmpty = false := by
    cases hq : unfinishedIdxs s.staircases with
    | nil => exact absurd hq hu
    | cons a l => rfl
  simp only [List.isEmpty_nil, if_true, hie, Bool.false_eq_true, if_false]

/-- C7: under the FULL_RANDOM policy, every fully-randomized selection step
(one that rebuilds an empty pass while unfinished staircases remain) advances
the duplication cardinal cyclically - the new cardinal is the old one modulo
`duplicates`, plus one - so it always lies in `[1, duplicates]`; with
`duplicates = 3` consecutive steps therefore carry cardinals 1, 2, 3
cyclically. -/
theorem duplication_cardinal_cycles (s : MultiStairHandler)
    (hm : s.multiMethod = .fullRandom) (hp : s.currentPass = [])
    (hu : unfinishedIdxs s.staircases ≠ []) (hd : 1 ≤ s.duplicates) :
    (nextTrial s).duplicatedTrialCardinal = s.duplicatedTrialCardinal % s.duplicates + 1 ∧
    1 ≤ (nextTrial s).duplicatedTrialCardinal ∧
    (nextTrial s).duplicatedTrialCardinal ≤ s.duplicates := by
  have h1 := nextTrial_cardinal s
  have h2 := rebuildPass_fullRandom_cardinal s hm hp hu
  rw [h1, h2]
  refine ⟨rfl, by omega, ?_⟩
  have := Nat.mod_lt s.duplicatedTrialCardinal (show 0 < s.duplicates by omega)
  omega

/-- C7 witness: the cardinal advance evaluated at the concrete
duplicate-tagged fully-randomized coordinator state. -/
theorem duplication_cardinal_cycles_witness :
    (nextTrial taggedState).duplicatedTrialCardinal =
      taggedState.duplicatedTrialCardinal % taggedState.duplicates + 1 ∧
    1 ≤ (nextTrial taggedState).duplicatedTrialCardinal ∧
    (nextTrial taggedState).duplicatedTrialCardinal ≤ taggedState.duplicates :=
  duplication_cardinal_cycles taggedState (by decide) (by decide) (by decide) (by decide)

theorem backfillFinished_spec (s : MultiStairHandler) (t0 : Nat)
    (hlt : t0 < s.snapshots.length - 1)
    (hundef : slotDefined s.trialList (t0 + 1) = false)
    (hfirst : ∀ j, j < t0 → slotDefined s.trialList (j + 1) = true) :
    (backfillFinished s).snapshots =
      s.snapshots.set t0 { s.snapshots.getD t0 {} with finished := true } := by
  have hidx : backfillIdx s.snapshots.length s.trialList = some t0 := by
    apply firstIdxFrom_eq_some_of
    · exact Nat.zero_le _
    · omega
    · simp [hundef]
    · intro j _ hj2
      simp [hfirst j hj2]
  unfold backfillFinished
  rw [hidx]

theorem nextTrial_none_eq (s : MultiStairHandler)
    (h : (selectStage s).currentStaircase = none) :
    nextTrial s = backfillFinished { selectStage s with finished := true } := by
  unfold nextTrial
  simp only [h]

/-- C9: when the trial-selection step finds no next staircase, the
coordinator marks itself finished, leaves every trial ledger slot unchanged,
and sets the finished flag on exactly the snapshot at the first index `t0`
(with `t0 < snapshots.length - 1`) whose successor ledger slot `t0 + 1` is
undefined, leaving all other snapshots unchanged. -/
theorem termination_backfill (s : MultiStairHandler) (t0 : Nat)
    (hterm : (selectStage s).currentStaircase = none)
    (hlt : t0 < s.snapshots.length - 1)
    (hundef : slotDefined s.trialList (t0 + 1) = false)
    (hfirst : ∀ j, j < t0 → slotDefined s.trialList (j + 1) = true) :
    (nextTrial s).finished = true ∧
    (nextTrial s).trialList = s.trialList ∧
    (nextTrial s).snapshots =
      s.snapshots.set t0 { s.snapshots.getD t0 {} with finished := true } := by
  rw [nextTrial_none_eq s hterm]
  have hsn : ({ selectStage s with finished := true } : MultiStairHandler).snapshots
      = s.snapshots := selectStage_snapshots s
  have htl : ({ selectStage s with finished := true } : MultiStairHandler).trialList
      = s.trialList := selectStage_trialList s
  refine ⟨?_, ?_, ?_⟩
  · rw [backfillFinished_finished]
  · rw [backfillFinished_trialList]
    exact htl
  · rw [backfillFinished_spec { selectStage s with finished := true } t0
      (by rw [hsn]; exact hlt) (by rw [htl]; exact hundef)
      (fun j hj => by rw [htl]; exact hfirst j hj)]
    rw [hsn]

/-- C9 witness: the termination backfill evaluated at a concrete state with
three snapshots and first undefined successor slot at index 1. -/
theorem termination_backfill_witness :
    (nextTrial backfillDemoState).finished = true ∧
    (nextTrial backfillDemoState).trialList = backfillDemoState.trialList ∧
    (nextTrial backfillDemoState).snapshots =
      backfillDemoState.snapshots.set 0
        { backfillDemoState.snapshots.getD 0 {} with finished := true } :=
  termination_backfill backfillDemoState 0 (by decide) (by decide) (by decide)
    (fun j hj => absurd hj (by omega))

end MultiStairHandler

namespace MultiStairHandler

theorem nextTrial_sink (s : MultiStairHandler) : (nextTrial s).sink = s.sink := by
  unfold nextTrial
  cases hcur : (selectStage s).currentStaircase with
  | none =>
    simp only [hcur]
    rw [backfillFinished_sink]
    exact selectStage_sink s
  | some i =>
    simp only [hcur]
    rw [fillTrialSlot_sink]
    exact selectStage_sink s

theorem addResponse_invalid (s : MultiStairHandler) (r : Response) (v : Option Int)
    (g : Bool) (hv : r.valid = false) :
    addResponse s r v g = .error validationError := by
  unfold addResponse
  rw [if_neg (by rw [hv]; simp)]

theorem addResponse_ok_form (s : MultiStairHandler) (r : Response) (v : Option Int)
    (g : Bool) (hv : r.valid = true)
    (hgood : s.finished = true ∨ ∃ i, s.currentStaircase = some i) :
    (s.finished = true ∧ addResponse s r v g = .ok (recordResponse s r)) ∨
    (∃ i, s.finished = false ∧ s.currentStaircase = some i ∧
      addResponse s r v g = .ok (nextTrial { recordResponse s r with
        staircases := s.staircases.set i
          ((s.staircases.getD i defaultQuest).addResponse r v false g) })) := by
  unfold addResponse processResponse
  rw [if_pos hv]
  cases hfb : s.finished with
  | true =>
    left
    refine ⟨rfl, ?_⟩
    rw [if_pos (show (recordResponse s r).finished = true from hfb)]
  | false =>
    right
    rcases hgood with hg | ⟨i, hi⟩
    · rw [hfb] at hg; cases hg
    · refine ⟨i, rfl, hi, ?_⟩
      have hfr : (recordResponse s r).finished = false := hfb
      have hir : (recordResponse s r).currentStaircase = some i := hi
      simp only [hfr, Bool.false_eq_true, if_false, hir]
      rfl

/-- C2: `addResponse` throws exactly on a response that is neither 0 nor 1
nor an array of 0s and 1s - the thrown value is the validation error with its
origin and context, and nothing (including the data sink) changes; a valid
response is always recorded to the external data sink - one scalar per
response element, regardless of the finished state and of `doGiveToQuest` -
and the remaining processing never touches the sink. -/
theorem addResponse_validates (s : MultiStairHandler) (r : Response) (v : Option Int)
    (g : Bool) (hgood : s.finished = true ∨ ∃ i, s.currentStaircase = some i) :
    ((∃ err, addResponse s r v g = .error err) ↔ r.valid = false) ∧
    (r.valid = false → addResponse s r v g = .error validationError) ∧
    (r.valid = true → ∃ s', addResponse s r v g = .ok s' ∧
      s'.sink = s.sink ++ r.scalars.map (fun x => (s.name ++ ".response", JsVal.num x))) := by
  by_cases hv : r.valid = true
  · have hform := addResponse_ok_form s r v g hv hgood
    refine ⟨?_, ?_, ?_⟩
    · constructor
      · rintro ⟨err, herr⟩
        rcases hform with ⟨_, hok⟩ | ⟨i, _, _, hok⟩ <;> rw [hok] at herr <;> cases herr
      · intro hc
        rw [hv] at hc
        cases hc
    · intro hc
      rw [hv] at hc
      cases hc
    · intro _
      rcases hform with ⟨_, hok⟩ | ⟨i, _, _, hok⟩
      · exact ⟨_, hok, rfl⟩
      · refine ⟨_, hok, ?_⟩
        rw [nextTrial_sink]
        rfl
  · have hv' : r.valid = false := by
      cases hb : r.valid
      · rfl
      · exact absurd hb hv
    have herr := addResponse_invalid s r v g hv'
    refine ⟨⟨fun _ => hv', fun _ => ⟨validationError, herr⟩⟩, fun _ => herr, ?_⟩
    intro hc
    rw [hv'] at hc
    cases hc

/-- C2 witness: the validation contract evaluated at the concrete scenario
coordinator and the invalid response `2`. -/
theorem addResponse_validates_witness :
    ((∃ err, addResponse scenarioState (.scalar 2) none true = .error err) ↔
      (Response.scalar 2).valid = false) ∧
    ((Response.scalar 2).valid = false →
      addResponse scenarioState (.scalar 2) none true = .error validationError) ∧
    ((Response.scalar 2).valid = true →
      ∃ s', addResponse scenarioState (.scalar 2) none true = .ok s' ∧
        s'.sink = scenarioState.sink ++ (Response.scalar 2).scalars.map
          (fun x => (scenarioState.name ++ ".response", JsVal.num x))) :=
  addResponse_validates scenarioState (.scalar 2) none true (Or.inr ⟨0, by decide⟩)

/-- C5: once the coordinator is finished, a valid `addResponse` call succeeds
and only appends the raw response value(s) to the external data sink: the
trial ledger, the staircases and every other piece of coordinator state are
returned unchanged. -/
theorem addResponse_after_finished (s : MultiStairHandler) (r : Response)
    (v : Option Int) (g : Bool) (hf : s.finished = true) (hv : r.valid = true) :
    addResponse s r v g = .ok { s with
      sink := s.sink ++ r.scalars.map (fun x => (s.name ++ ".response", JsVal.num x)) } := by
  unfold addResponse processResponse
  rw [if_pos hv, if_pos (show (recordResponse s r).finished = true from hf)]
  rfl

/-- C5 witness: a post-termination call with response `1` on a concrete
finished coordinator. -/
theorem addResponse_after_finished_witness :
    addResponse finishedDemoState (.scalar 1) none true = .ok { finishedDemoState with
      sink := finishedDemoState.sink ++ (Response.scalar 1).scalars.map
        (fun x => (finishedDemoState.name ++ ".response", JsVal.num x)) } :=
  addResponse_after_finished finishedDemoState (.scalar 1) none true (by decide) (by decide)

theorem recordResponse_emptyArr (s : MultiStairHandler) :
    recordResponse s (.arr []) = s := by
  unfold recordResponse
  simp [Response.scalars]

/-- C10 counterexample: on the concrete unfinished coordinator built from
`argsSeqDup` - which still has an undefined ledger slot - the empty-array
response is accepted and records nothing, but the trial-selection step
consumes no ledger slot at all: it marks the coordinator finished instead. -/
theorem emptyArray_counterexample :
    exceptFinished (runMSH argsSeqDup 0 []) = some false ∧
    (exceptTrialList (runMSH argsSeqDup 0 [])).map (fun tl => slotDefined tl 1) =
      some false ∧
    exceptTrialList (runMSH argsSeqDup 0 [callEmptyArr]) =
      exceptTrialList (runMSH argsSeqDup 0 []) ∧
    exceptSink (runMSH argsSeqDup 0 [callEmptyArr]) = exceptSink (runMSH argsSeqDup 0 []) ∧
    exceptFinished (runMSH argsSeqDup 0 [callEmptyArr]) = some true := by
  decide

/-- C10 amended: for an unfinished coordinator with a current staircase, the
empty-array response is accepted (the every-element check is vacuous), records
no value at all to the data sink, and is forwarded to the current staircase
after which one trial-selection step runs - which writes the first undefined
ledger slot only when it selects a next staircase and otherwise marks the
coordinator finished. -/
theorem addResponse_emptyArray (s : MultiStairHandler) (i : Nat) (v : Option Int)
    (g : Bool) (hf : s.finished = false) (hc : s.currentStaircase = some i) :
    addResponse s (.arr []) v g = .ok (nextTrial { s with
      staircases := s.staircases.set i
        ((s.staircases.getD i defaultQuest).addResponse (.arr []) v false g) }) ∧
    (recordResponse s (.arr [])).sink = s.sink := by
  have hform := addResponse_ok_form s (.arr []) v g (by decide) (Or.inr ⟨i, hc⟩)
  rcases hform with ⟨hft, _⟩ | ⟨j, _, hcj, hok⟩
  · rw [hf] at hft; cases hft
  · have hji : j = i := by rw [hc] at hcj; cases hcj; rfl
    subst hji
    refine ⟨?_, by rw [recordResponse_emptyArr]⟩
    rw [hok, recordResponse_emptyArr]

/-- C10 amended witness: the empty-array call evaluated at the concrete
coordinator built from `argsSeqDup`. -/
theorem addResponse_emptyArray_witness :
    addResponse seqDupState (.arr []) none true = .ok (nextTrial { seqDupState with
      staircases := seqDupState.staircases.set 0
        ((seqDupState.staircases.getD 0 defaultQuest).addResponse (.arr []) none false true) }) ∧
    (recordResponse seqDupState (.arr [])).sink = seqDupState.sink :=
  addResponse_emptyArray seqDupState 0 none true (by decide) (by decide)

end MultiStairHandler

namespace MultiStairHandler

theorem repeatEveryElement_length {α : Type} (l : List α) (n : Nat) :
    (repeatEveryElement l n).length = l.length * n := by
  unfold repeatEveryElement
  induction l with
  | nil => simp
  | cons x xs ih =>
    simp only [List.flatMap_cons, List.length_append, List.length_replicate, ih,
      List.length_cons]
    ring

theorem baseTrialKey_length (args : MSHArgs) :
    (baseTrialKey args).length = contribBudget args := by
  unfold baseTrialKey contribBudget
  generalize condObjs args.conditions = cs
  induction cs with
  | nil => rfl
  | cons c cs ih =>
    simp only [List.flatMap_cons, List.length_append, List.filter_cons]
    by_cases hc : (c.duplicatedConditionCardinal.isNone ||
        c.duplicatedConditionCardinal == some 1) = true
    · simp only [hc, if_true, List.map_cons, List.sum_cons, List.length_replicate, ih]
    · simp only [hc, Bool.false_eq_true, if_false, List.length_nil, ih]
      omega

/-- C6 amended: the trial key sequence built at construction is exactly the
labels of the conditions that carry no duplication-cardinal tag or carry tag 1
- each replicated by its trial budget and concatenated in condition order -
shuffled once with the ambient (unseeded) generator, then expanded into
`duplicates` adjacent repeats per element; its length is therefore the summed
budget of those contributing conditions times the duplication factor, the
shuffle only permutes the keys, and duplication groups stay contiguous. -/
theorem trialKey_construction (args : MSHArgs) (entropy : Nat) :
    (initState args entropy).trialKey = builtTrialKey args entropy ∧
    builtTrialKey args entropy =
      repeatEveryElement (shuffle (baseTrialKey args) entropy).1 args.duplicates ∧
    (shuffle (baseTrialKey args) entropy).1.Perm (baseTrialKey args) ∧
    (builtTrialKey args entropy).length = contribBudget args * args.duplicates ∧
    ∃ ys : List String, builtTrialKey args entropy =
      ys.flatMap (fun x => List.replicate args.duplicates x) := by
  refine ⟨rfl, rfl, shuffle_perm _ _, ?_, ⟨(shuffle (baseTrialKey args) entropy).1, rfl⟩⟩
  unfold builtTrialKey
  rw [repeatEveryElement_length, shuffle_length, baseTrialKey_length]

/-- C6 counterexample: with duplicate-tagged condition copies the built trial
key sequence does not have length equal to the sum over all conditions of
trial budget times duplication factor: the cardinal-2 copy contributes no
keys. -/
theorem trialKey_length_counterexample :
    (builtTrialKey argsTagged 0).length ≠ totalBudget argsTagged * argsTagged.duplicates := by
  decide

theorem nextTrial_multiMethod (s : MultiStairHandler) :
    (nextTrial s).multiMethod = s.multiMethod := by
  unfold nextTrial
  cases hcur : (selectStage s).currentStaircase with
  | none =>
    simp only [hcur]
    rw [backfillFinished_multiMethod]
    exact selectStage_multiMethod s
  | some i =>
    simp only [hcur]
    rw [fillTrialSlot_multiMethod]
    exact selectStage_multiMethod s

theorem rebuildPass_setKeyAmbient (s : MultiStairHandler) (tk : List String) (am : Nat)
    (hm : s.multiMethod ≠ .fullRandom) :
    rebuildPass (setKeyAmbient s tk am) = setKeyAmbient (rebuildPass s) tk am := by
  have h1 : (setKeyAmbient s tk am).currentPass = s.currentPass := rfl
  have h2 : (setKeyAmbient s tk am).staircases = s.staircases := rfl
  have h3 : (setKeyAmbient s tk am).multiMethod = s.multiMethod := rfl
  unfold rebuildPass
  rw [h1, h2, h3]
  cases hmm : s.multiMethod with
  | fullRandom => exact absurd hmm hm
  | sequential =>
    simp only [hmm]
    by_cases hp : s.currentPass.isEmpty
    · simp only [hp, if_true]
      rfl
    · simp only [hp, Bool.false_eq_true, if_false]
  | random =>
    simp only [hmm]
    by_cases hp : s.currentPass.isEmpty
    · simp only [hp, if_true]
      rfl
    · simp only [hp, Bool.false_eq_true, if_false]

theorem selectStage_setKeyAmbient (s : MultiStairHandler) (tk : List String) (am : Nat)
    (hm : s.multiMethod ≠ .fullRandom) :
    selectStage (setKeyAmbient s tk am) = setKeyAmbient (selectStage s) tk am := by
  unfold selectStage
  rw [rebuildPass_setKeyAmbient s tk am hm]
  rfl

theorem fillTrialSlot_setKeyAmbient (s : MultiStairHandler) (q : QuestHandler) (v : Int)
    (tk : List String) (am : Nat) :
    fillTrialSlot (setKeyAmbient s tk am) q v = setKeyAmbient (fillTrialSlot s q v) tk am := by
  have h1 : (setKeyAmbient s tk am).trialList = s.trialList := rfl
  have h2 : (setKeyAmbient s tk am).name = s.name := rfl
  have h3 : (setKeyAmbient s tk am).varName = s.varName := rfl
  have h4 : (setKeyAmbient s tk am).snapshots = s.snapshots := rfl
  unfold fillTrialSlot
  rw [h1, h2, h3, h4]
  cases hf : firstUndefinedIdx s.trialList with
  | none => rfl
  | some t =>
    simp only [hf]
    cases hg : s.snapshots.get? t with
    | none => simp only [hg]; rfl
    | some snap => simp only [hg]; rfl

theorem backfillFinished_setKeyAmbient (s : MultiStairHandler) (tk : List String) (am : Nat) :
    backfillFinished (setKeyAmbient s tk am) = setKeyAmbient (backfillFinished s) tk am := by
  have h1 : (setKeyAmbient s tk am).trialList = s.trialList := rfl
  have h2 : (setKeyAmbient s tk am).snapshots = s.snapshots := rfl
  unfold backfillFinished
  rw [h1, h2]
  cases hb : backfillIdx s.snapshots.length s.trialList with
  | none => rfl
  | some t => simp only [hb]; rfl

theorem nextTrial_setKeyAmbient (s : MultiStairHandler) (tk : List String) (am : Nat)
    (hm : s.multiMethod ≠ .fullRandom) :
    nextTrial (setKeyAmbient s tk am) = setKeyAmbient (nextTrial s) tk am := by
  unfold nextTrial
  rw [selectStage_setKeyAmbient s tk am hm]
  cases hc : (selectStage s).currentStaircase with
  | none =>
    simp only [show (setKeyAmbient (selectStage s) tk am).currentStaircase =
      (selectStage s).currentStaircase from rfl, hc]
    exact backfillFinished_setKeyAmbient
      { selectStage s with currentStaircase := none, finished := true } tk am
  | some i =>
    simp only [show (setKeyAmbient (selectStage s) tk am).currentStaircase =
      (selectStage s).currentStaircase from rfl, hc]
    exact fillTrialSlot_setKeyAmbient
      { selectStage s with
          currentStaircase := some i
          debugLog := (selectStage s).debugLog ++
            [(((selectStage s).staircases.getD i defaultQuest).name,
              ((selectStage s).staircases.getD i defaultQuest).getQuestValue)] }
      ((selectStage s).staircases.getD i defaultQuest)
      ((selectStage s).staircases.getD i defaultQuest).getQuestValue tk am

theorem addResponse_ok_multiMethod (s : MultiStairHandler) (r : Response) (v : Option Int)
    (g : Bool) (u : MultiStairHandler) (h : addResponse s r v g = .ok u) :
    u.multiMethod = s.multiMethod := by
  unfold addResponse processResponse at h
  by_cases hv : r.valid = true
  · rw [if_pos hv] at h
    by_cases hf : (recordResponse s r).finished = true
    · rw [if_pos hf] at h
      cases h
      rfl
    · rw [if_neg hf] at h
      cases hc : (recordResponse s r).currentStaircase with
      | none =>
        simp only [hc] at h
        exact Except.noConfusion h
      | some i =>
        simp only [hc] at h
        cases h
        rw [nextTrial_multiMethod]
        rfl
  · have hvf : r.valid = false := by
      cases hb : r.valid
      · rfl
      · exact absurd hb hv
    rw [if_neg (by rw [hvf]; simp)] at h
    exact Except.noConfusion h

theorem processResponse_setKeyAmbient (t : MultiStairHandler) (r : Response)
    (v : Option Int) (g : Bool) (tk : List String) (am : Nat)
    (hm : t.multiMethod ≠ .fullRandom) :
    processResponse (setKeyAmbient t tk am) r v g =
      (processResponse t r v g).map (fun u => setKeyAmbient u tk am) := by
  unfold processResponse
  have hf1 : (setKeyAmbient t tk am).finished = t.finished := rfl
  rw [hf1]
  by_cases hf : t.finished = true
  · rw [if_pos hf, if_pos hf]
    rfl
  · rw [if_neg hf, if_neg hf]
    have hc1 : (setKeyAmbient t tk am).currentStaircase = t.currentStaircase := rfl
    have hq : (setKeyAmbient t tk am).staircases = t.staircases := rfl
    rw [hc1, hq]
    cases hc : t.currentStaircase with
    | none => simp only [hc]; rfl
    | some i =>
      simp only [hc, Except.map]
      refine congrArg Except.ok (nextTrial_setKeyAmbient
        { t with
            currentStaircase := some i
            staircases := t.staircases.set i
              ((t.staircases.getD i defaultQuest).addResponse r v false g) } tk am ?_)
      exact hm

theorem addResponse_setKeyAmbient (s : MultiStairHandler) (r : Response) (v : Option Int)
    (g : Bool) (tk : List String) (am : Nat) (hm : s.multiMethod ≠ .fullRandom) :
    addResponse (setKeyAmbient s tk am) r v g =
      (addResponse s r v g).map (fun u => setKeyAmbient u tk am) := by
  unfold addResponse
  by_cases hv : r.valid = true
  · rw [if_pos hv, if_pos hv]
    have hrec : recordResponse (setKeyAmbient s tk am) r =
        setKeyAmbient (recordResponse s r) tk am := rfl
    rw [hrec]
    exact processResponse_setKeyAmbient (recordResponse s r) r v g tk am hm
  · rw [if_neg hv, if_neg hv]
    rfl

theorem runCalls_setKeyAmbient (calls : List RespCall) :
    ∀ (s : MultiStairHandler) (tk : List String) (am : Nat), s.multiMethod ≠ .fullRandom →
      runCalls (setKeyAmbient s tk am) calls =
        (runCalls s calls).map (fun u => setKeyAmbient u tk am) := by
  induction calls with
  | nil => intro s tk am _; rfl
  | cons c cs ih =>
    intro s tk am hm
    unfold runCalls
    rw [addResponse_setKeyAmbient s c.response c.value c.doGiveToQuest tk am hm]
    cases h : addResponse s c.response c.value c.doGiveToQuest with
    | error e => rfl
    | ok u =>
      simp only [Except.map]
      exact ih u tk am (by rw [addResponse_ok_multiMethod s _ _ _ u h]; exact hm)

theorem initState_entropy (args : MSHArgs) (sd : Nat) (hseed : args.randomSeed = some sd)
    (e1 e2 : Nat) :
    initState args e2 = setKeyAmbient (initState args e1) (builtTrialKey args e2)
      (shuffle (baseTrialKey args) e2).2 := by
  unfold initState setKeyAmbient
  simp only [hseed]

/-- C1 amended: two coordinators constructed from identical arguments
(including the seed) and fed identical response sequences produce identical
observable outputs - the sequence of selected staircase labels with their
recommended values, and the trial ledger - whenever the selection policy is
SEQUENTIAL or RANDOM; under FULL_RANDOM the same holds only when the ambient
(unseeded) randomness consumed by the trial key shuffle coincides as well. -/
theorem run_deterministic (args : MSHArgs) (sd : Nat) (e1 e2 : Nat) (calls : List RespCall)
    (hseed : args.randomSeed = some sd)
    (hm : args.method ≠ .fullRandom ∨ e1 = e2) :
    observables (runMSH args e1 calls) = observables (runMSH args e2 calls) := by
  rcases hm with hm | rfl
  · unfold runMSH construct
    cases hval : validateConditionsCore args.conditions args.stairType with
    | some m => rfl
    | none =>
      simp only [hval]
      have hm1 : (initState args e1).multiMethod ≠ .fullRandom := hm
      rw [initState_entropy args sd hseed e1 e2,
        nextTrial_setKeyAmbient _ _ _ hm1,
        runCalls_setKeyAmbient calls _ _ _ (by rw [nextTrial_multiMethod]; exact hm1)]
      cases runCalls (nextTrial (initState args e1)) calls with
      | error e => rfl
      | ok u => rfl
  · rfl

/-- C1 counterexample: under the FULL_RANDOM policy, two coordinators with
identical seeded arguments but different ambient entropy for the unseeded
trial key shuffle produce different selected-label and ledger outputs. -/
theorem run_deterministic_counterexample :
    observables (runMSH argsFullRandom 0 []) ≠ observables (runMSH argsFullRandom 1 []) := by
  decide

/-- C1 witness: determinism evaluated at the concrete section-8 scenario
arguments with two different ambient entropies. -/
theorem run_deterministic_witness :
    observables (runMSH argsScenario 0 [callOne]) =
      observables (runMSH argsScenario 5 [callOne]) :=
  run_deterministic argsScenario 1 0 5 [callOne] rfl (Or.inl (by decide))

end MultiStairHandler

namespace MultiStairHandler

theorem unfinishedIdxs_mem (qs : List QuestHandler) (i : Nat) :
    i ∈ unfinishedIdxs qs ↔
      i < qs.length ∧ (qs.getD i defaultQuest).finished = false := by
  unfold unfinishedIdxs
  rw [List.mem_filter, List.mem_range]
  simp

theorem unfinishedIdxs_nodup (qs : List QuestHandler) : (unfinishedIdxs qs).Nodup :=
  (List.nodup_range _).filter _

theorem unfinishedIdxs_eq_nil_iff (qs : List QuestHandler) :
    unfinishedIdxs qs = [] ↔
      ∀ i, i < qs.length → (qs.getD i defaultQuest).finished = true := by
  constructor
  · intro h i hi
    by_contra hc
    have hf : (qs.getD i defaultQuest).finished = false := by
      cases hb : (qs.getD i defaultQuest).finished
      · rfl
      · exact absurd hb hc
    have : i ∈ unfinishedIdxs qs := (unfinishedIdxs_mem qs i).mpr ⟨hi, hf⟩
    rw [h] at this
    cases this
  · intro h
    cases hu : unfinishedIdxs qs with
    | nil => rfl
    | cons a l =>
      have ha : a ∈ unfinishedIdxs qs := by
        rw [hu]
        exact List.mem_cons_self _ _
      obtain ⟨h1, h2⟩ := (unfinishedIdxs_mem qs a).mp ha
      rw [h a h1] at h2
      cases h2

theorem mem_getD_of_mem {α : Type} (l : List α) (q d : α) (h : q ∈ l) :
    ∃ i, i < l.length ∧ l.getD i d = q := by
  induction l with
  | nil => cases h
  | cons x xs ih =>
    rcases List.mem_cons.mp h with h | h
    · exact ⟨0, by simp, h.symm⟩
    · obtain ⟨i, hi, hg⟩ := ih h
      exact ⟨i + 1, by simp only [List.length_cons]; omega, hg⟩

theorem questFinished_iff (q : QuestHandler) :
    q.finished = true ↔ q.nTrials ≤ q.trialCount := by
  unfold QuestHandler.finished
  simp

theorem questFinished_false_iff (q : QuestHandler) :
    q.finished = false ↔ q.trialCount < q.nTrials := by
  unfold QuestHandler.finished
  simp

theorem runInv_finished_iff (s : MultiStairHandler) (hInv : RunInv s) :
    s.finished = true ↔ countSum s = budgetSum s := by
  constructor
  · intro hf
    unfold countSum budgetSum
    apply sum_map_congr
    intro q hq
    have h1 := hInv.counts_le q hq
    have h2 := (questFinished_iff q).mp (hInv.fin_all hf q hq)
    omega
  · intro hsum
    cases hfb : s.finished
    · exfalso
      obtain ⟨i, _, hlt, hunf, _⟩ := hInv.cur_def hfb
      have hlt2 := (questFinished_false_iff _).mp hunf
      have hslt := sum_map_lt QuestHandler.trialCount QuestHandler.nTrials s.staircases i
        defaultQuest hlt hInv.counts_le hlt2
      unfold countSum budgetSum at hsum
      omega
    · rfl

theorem runInv_countSum_le (s : MultiStairHandler) (hInv : RunInv s) :
    countSum s ≤ budgetSum s := by
  unfold countSum budgetSum
  exact List.sum_le_sum hInv.counts_le

theorem rebuildPass_nonempty (t : MultiStairHandler) (h : t.currentPass ≠ []) :
    rebuildPass t = t := by
  unfold rebuildPass
  rw [if_neg]
  intro hc
  exact h (List.isEmpty_iff.mp hc)

theorem rebuildPass_empty_seq (t : MultiStairHandler) (h : t.currentPass = [])
    (hm : t.multiMethod = .sequential) :
    rebuildPass t = { t with currentPass := (unfinishedIdxs t.staircases).map some } := by
  unfold rebuildPass
  simp only [h, hm, List.isEmpty_nil, if_true]

theorem rebuildPass_empty_rand (t : MultiStairHandler) (h : t.currentPass = [])
    (hm : t.multiMethod = .random) :
    rebuildPass t = { t with
      currentPass := (shuffle (unfinishedIdxs t.staircases) t.rng).1.map some
      rng := (shuffle (unfinishedIdxs t.staircases) t.rng).2 } := by
  unfold rebuildPass
  simp only [h, hm, List.isEmpty_nil, if_true]

theorem rebuildPass_empty_nonFR (t : MultiStairHandler) (hm : t.multiMethod ≠ .fullRandom)
    (hp : t.currentPass = []) :
    ∃ u : List Nat, u.Perm (unfinishedIdxs t.staircases) ∧
      (rebuildPass t).currentPass = u.map some := by
  cases hmm : t.multiMethod with
  | fullRandom => exact absurd hmm hm
  | sequential =>
    refine ⟨unfinishedIdxs t.staircases, List.Perm.refl _, ?_⟩
    rw [rebuildPass_empty_seq t hp hmm]
  | random =>
    refine ⟨(shuffle (unfinishedIdxs t.staircases) t.rng).1, shuffle_perm _ _, ?_⟩
    rw [rebuildPass_empty_rand t hp hmm]

theorem nextTrial_some_eq (t : MultiStairHandler) (i : Nat)
    (h : (selectStage t).currentStaircase = some i) :
    nextTrial t = fillTrialSlot
      { selectStage t with
          debugLog := (selectStage t).debugLog ++
            [(((selectStage t).staircases.getD i defaultQuest).name,
              ((selectStage t).staircases.getD i defaultQuest).getQuestValue)] }
      ((selectStage t).staircases.getD i defaultQuest)
      ((selectStage t).staircases.getD i defaultQuest).getQuestValue := by
  unfold nextTrial
  simp only [h]

theorem nextTrial_some_fields (t : MultiStairHandler) (i : Nat)
    (h : (selectStage t).currentStaircase = some i) :
    (nextTrial t).staircases = t.staircases ∧
    (nextTrial t).multiMethod = t.multiMethod ∧
    (nextTrial t).finished = t.finished ∧
    (nextTrial t).currentPass = (selectStage t).currentPass ∧
    (nextTrial t).currentStaircase = some i := by
  rw [nextTrial_some_eq t i h]
  refine ⟨?_, ?_, ?_, ?_, ?_⟩
  · rw [fillTrialSlot_staircases]
    exact selectStage_staircases t
  · rw [fillTrialSlot_multiMethod]
    exact selectStage_multiMethod t
  · rw [fillTrialSlot_finished]
    exact selectStage_finished t
  · rw [fillTrialSlot_currentPass]
  · rw [fillTrialSlot_currentStaircase]
    exact h

theorem nextTrial_none_fields (t : MultiStairHandler)
    (h : (selectStage t).currentStaircase = none) :
    (nextTrial t).staircases = t.staircases ∧
    (nextTrial t).multiMethod = t.multiMethod ∧
    (nextTrial t).finished = true ∧
    (nextTrial t).currentPass = (selectStage t).currentPass := by
  rw [nextTrial_none_eq t h]
  refine ⟨?_, ?_, ?_, ?_⟩
  · rw [backfillFinished_staircases]
    exact selectStage_staircases t
  · rw [backfillFinished_multiMethod]
    exact selectStage_multiMethod t
  · rw [backfillFinished_finished]
  · rw [backfillFinished_currentPass]

theorem selectStage_currentStaircase (t : MultiStairHandler) :
    (selectStage t).currentStaircase = (rebuildPass t).currentPass.head?.getD none := rfl

theorem selectStage_currentPass (t : MultiStairHandler) :
    (selectStage t).currentPass = (rebuildPass t).currentPass.tail := rfl

end MultiStairHandler

namespace MultiStairHandler

theorem nextTrial_run_inv (t : MultiStairHandler)
    (hm : t.multiMethod ≠ .fullRandom)
    (hcle : ∀ q ∈ t.staircases, q.trialCount ≤ q.nTrials)
    (hpe : ∀ x ∈ t.currentPass, ∃ i, x = some i ∧ i < t.staircases.length ∧
      (t.staircases.getD i defaultQuest).finished = false)
    (hnd : t.currentPass.Nodup)
    (hfin : t.finished = false) :
    (nextTrial t).staircases = t.staircases ∧
    (nextTrial t).multiMethod = t.multiMethod ∧
    RunInv (nextTrial t) ∧
    ((nextTrial t).finished = true ↔
      (t.currentPass = [] ∧ unfinishedIdxs t.staircases = [])) := by
  cases hp : t.currentPass with
  | cons c rest =>
    -- the pass is non-empty: no rebuild, the head is shifted off
    have hrb : rebuildPass t = t := rebuildPass_nonempty t (by rw [hp]; intro hc; cases hc)
    obtain ⟨i, hci, hilt, hiunf⟩ := hpe c (by rw [hp]; exact List.mem_cons_self _ _)
    have hcur : (selectStage t).currentStaircase = some i := by
      rw [selectStage_currentStaircase, hrb, hp, hci]
      rfl
    have hpass : (selectStage t).currentPass = rest := by
      rw [selectStage_currentPass, hrb, hp]
      rfl
    obtain ⟨hst, hmm, hfn, hcp, hcs⟩ := nextTrial_some_fields t i hcur
    rw [hpass] at hcp
    have hndrest : rest.Nodup := by
      rw [hp] at hnd
      exact hnd.of_cons
    have hcnotin : c ∉ rest := by
      rw [hp] at hnd
      exact (List.nodup_cons.mp hnd).1
    refine ⟨hst, hmm, ?_, ?_⟩
    · refine ⟨?_, ?_, ?_, ?_, ?_, ?_⟩
      · rw [hmm]; exact hm
      · rw [hst]; exact hcle
      · intro x hx
        rw [hcp] at hx
        obtain ⟨j, hj1, hj2, hj3⟩ := hpe x (by rw [hp]; exact List.mem_cons_of_mem _ hx)
        exact ⟨j, hj1, by rw [hst]; exact hj2, by rw [hst]; exact hj3⟩
      · rw [hcp]; exact hndrest
      · intro _
        refine ⟨i, hcs, by rw [hst]; exact hilt, by rw [hst]; exact hiunf, ?_⟩
        rw [hcp, ← hci]
        exact hcnotin
      · intro hft
        rw [hfn, hfin] at hft
        cases hft
    · rw [hfn, hfin]
      constructor
      · intro hc; cases hc
      · rintro ⟨hc, _⟩
        cases hc
  | nil =>
    -- the pass is rebuilt from the unfinished staircases
    obtain ⟨u, hperm, hpass⟩ := rebuildPass_empty_nonFR t hm hp
    cases hu : u with
    | nil =>
      -- no unfinished staircase: termination branch
      have hunf_nil : unfinishedIdxs t.staircases = [] := by
        have := hperm
        rw [hu] at this
        exact (List.Perm.nil_eq this).symm
      have hcur : (selectStage t).currentStaircase = none := by
        rw [selectStage_currentStaircase, hpass, hu]
        rfl
      obtain ⟨hst, hmm, hfn, hcp⟩ := nextTrial_none_fields t hcur
      have hcp2 : (nextTrial t).currentPass = [] := by
        rw [hcp, selectStage_currentPass, hpass, hu]
        rfl
      refine ⟨hst, hmm, ?_, ?_⟩
      · refine ⟨?_, ?_, ?_, ?_, ?_, ?_⟩
        · rw [hmm]; exact hm
        · rw [hst]; exact hcle
        · intro x hx
          rw [hcp2] at hx
          cases hx
        · rw [hcp2]; exact List.nodup_nil
        · intro hc
          rw [hfn] at hc
          cases hc
        · intro _ q hq
          rw [hst] at hq
          obtain ⟨j, hjlt, hjq⟩ := mem_getD_of_mem t.staircases q defaultQuest hq
          have := (unfinishedIdxs_eq_nil_iff t.staircases).mp hunf_nil j hjlt
          rw [hjq] at this
          exact this
      · rw [hfn]
        simp [hp, hunf_nil]
    | cons j us =>
      -- an unfinished staircase is selected
      have hju : j ∈ unfinishedIdxs t.staircases := by
        have : j ∈ u := by rw [hu]; exact List.mem_cons_self _ _
        exact hperm.mem_iff.mp this
      obtain ⟨hjlt, hjunf⟩ := (unfinishedIdxs_mem _ _).mp hju
      have hcur : (selectStage t).currentStaircase = some j := by
        rw [selectStage_currentStaircase, hpass, hu]
        rfl
      have hpass2 : (selectStage t).currentPass = us.map some := by
        rw [selectStage_currentPass, hpass, hu]
        rfl
      obtain ⟨hst, hmm, hfn, hcp, hcs⟩ := nextTrial_some_fields t j hcur
      rw [hpass2] at hcp
      have hund : u.Nodup := hperm.nodup_iff.mpr (unfinishedIdxs_nodup _)
      have husnd : us.Nodup := by
        rw [hu] at hund
        exact hund.of_cons
      have hjnotin : j ∉ us := by
        rw [hu] at hund
        exact (List.nodup_cons.mp hund).1
      refine ⟨hst, hmm, ?_, ?_⟩
      · refine ⟨?_, ?_, ?_, ?_, ?_, ?_⟩
        · rw [hmm]; exact hm
        · rw [hst]; exact hcle
        · intro x hx
          rw [hcp] at hx
          obtain ⟨k, hk, hkx⟩ := List.mem_map.mp hx
          have hku : k ∈ unfinishedIdxs t.staircases := by
            apply hperm.mem_iff.mp
            rw [hu]
            exact List.mem_cons_of_mem _ hk
          obtain ⟨hklt, hkunf⟩ := (unfinishedIdxs_mem _ _).mp hku
          exact ⟨k, hkx.symm, by rw [hst]; exact hklt, by rw [hst]; exact hkunf⟩
        · rw [hcp]
          exact husnd.map (fun a b hab => Option.some.inj hab)
        · intro _
          refine ⟨j, hcs, by rw [hst]; exact hjlt, by rw [hst]; exact hjunf, ?_⟩
          rw [hcp]
          intro hc
          obtain ⟨k, hk, hkx⟩ := List.mem_map.mp hc
          have : k = j := Option.some.inj hkx
          rw [this] at hk
          exact hjnotin hk
        · intro hft
          rw [hfn, hfin] at hft
          cases hft
      · rw [hfn, hfin]
        constructor
        · intro hc; cases hc
        · rintro ⟨_, hc⟩
          have : u = [] := List.Perm.eq_nil (by rw [hc] at hperm; exact hperm)
          rw [hu] at this
          cases this

end MultiStairHandler

namespace MultiStairHandler

theorem addResponse_step_inv (s : MultiStairHandler) (c : RespCall)
    (hInv : RunInv s) (hv : c.response.valid = true) :
    ∃ u, addResponse s c.response c.value c.doGiveToQuest = .ok u ∧ RunInv u ∧
      budgetSum u = budgetSum s ∧ countSum u = min (countSum s + 1) (budgetSum s) := by
  have hgood : s.finished = true ∨ ∃ i, s.currentStaircase = some i := by
    cases hfb : s.finished
    · obtain ⟨i, hi, _⟩ := hInv.cur_def hfb
      exact Or.inr ⟨i, hi⟩
    · exact Or.inl rfl
  rcases addResponse_ok_form s c.response c.value c.doGiveToQuest hv hgood with
    ⟨hf, hok⟩ | ⟨i, hf, hci, hok⟩
  · refine ⟨_, hok,
      ⟨hInv.method_ne, hInv.counts_le, hInv.pass_elems, hInv.pass_nodup,
        hInv.cur_def, hInv.fin_all⟩, rfl, ?_⟩
    have hfin := (runInv_finished_iff s hInv).mp hf
    show countSum s = min (countSum s + 1) (budgetSum s)
    omega
  · obtain ⟨i0, hc0, hlt0, hunf0, hnotin0⟩ := hInv.cur_def hf
    have hii : i0 = i := Option.some.inj (hc0.symm.trans hci)
    subst hii
    have hq' : QuestHandler.trialCount
        ((s.staircases.getD i0 defaultQuest).addResponse c.response c.value false
          c.doGiveToQuest) =
        (s.staircases.getD i0 defaultQuest).trialCount + 1 := rfl
    have hq'' : QuestHandler.nTrials
        ((s.staircases.getD i0 defaultQuest).addResponse c.response c.value false
          c.doGiveToQuest) =
        (s.staircases.getD i0 defaultQuest).nTrials := rfl
    have hcntlt := (questFinished_false_iff _).mp hunf0
    have hcle_mid : ∀ q ∈ s.staircases.set i0
        ((s.staircases.getD i0 defaultQuest).addResponse c.response c.value false
          c.doGiveToQuest), q.trialCount ≤ q.nTrials := by
      intro q hq
      rcases List.mem_or_eq_of_mem_set hq with hq | hq
      · exact hInv.counts_le q hq
      · rw [hq, hq', hq'']
        omega
    have hlen : (s.staircases.set i0
        ((s.staircases.getD i0 defaultQuest).addResponse c.response c.value false
          c.doGiveToQuest)).length = s.staircases.length := List.length_set _ _ _
    have hpe_mid : ∀ x ∈ s.currentPass, ∃ k, x = some k ∧
        k < (s.staircases.set i0
          ((s.staircases.getD i0 defaultQuest).addResponse c.response c.value false
            c.doGiveToQuest)).length ∧
        ((s.staircases.set i0
          ((s.staircases.getD i0 defaultQuest).addResponse c.response c.value false
            c.doGiveToQuest)).getD k defaultQuest).finished = false := by
      intro x hx
      obtain ⟨k, hk1, hk2, hk3⟩ := hInv.pass_elems x hx
      have hki : i0 ≠ k := by
        intro hc
        rw [hc] at hnotin0
        rw [hk1] at hx
        exact hnotin0 hx
      refine ⟨k, hk1, by rw [hlen]; exact hk2, ?_⟩
      rw [list_getD_set_ne _ _ _ _ _ hki]
      exact hk3
    obtain ⟨hst, hmm, hInv2, _⟩ := nextTrial_run_inv
      { recordResponse s c.response with
          staircases := s.staircases.set i0
            ((s.staircases.getD i0 defaultQuest).addResponse c.response c.value false
              c.doGiveToQuest) }
      hInv.method_ne hcle_mid hpe_mid hInv.pass_nodup hf
    have hsum_b := sum_map_set QuestHandler.nTrials s.staircases i0
      ((s.staircases.getD i0 defaultQuest).addResponse c.response c.value false
        c.doGiveToQuest) defaultQuest hlt0
    have hsum_c := sum_map_set QuestHandler.trialCount s.staircases i0
      ((s.staircases.getD i0 defaultQuest).addResponse c.response c.value false
        c.doGiveToQuest) defaultQuest hlt0
    have hcslt : countSum s < budgetSum s := by
      unfold countSum budgetSum
      exact sum_map_lt QuestHandler.trialCount QuestHandler.nTrials s.staircases i0
        defaultQuest hlt0 hInv.counts_le hcntlt
    refine ⟨_, hok, hInv2, ?_, ?_⟩
    · unfold budgetSum
      rw [hst]
      show ((s.staircases.set i0
        ((s.staircases.getD i0 defaultQuest).addResponse c.response c.value false
          c.doGiveToQuest)).map QuestHandler.nTrials).sum =
        (s.staircases.map QuestHandler.nTrials).sum
      rw [hq''] at hsum_b
      omega
    · unfold countSum budgetSum
      rw [hst]
      show ((s.staircases.set i0
        ((s.staircases.getD i0 defaultQuest).addResponse c.response c.value false
          c.doGiveToQuest)).map QuestHandler.trialCount).sum =
        min ((s.staircases.map QuestHandler.trialCount).sum + 1)
          ((s.staircases.map QuestHandler.nTrials).sum)
      rw [hq'] at hsum_c
      unfold countSum budgetSum at hcslt
      omega

theorem runCalls_inv (calls : List RespCall) :
    ∀ s : MultiStairHandler, RunInv s → (∀ c ∈ calls, c.response.valid = true) →
      ∃ u, runCalls s calls = .ok u ∧ RunInv u ∧
        budgetSum u = budgetSum s ∧
        countSum u = min (countSum s + calls.length) (budgetSum s) := by
  induction calls with
  | nil =>
    intro s hInv _
    refine ⟨s, rfl, hInv, rfl, ?_⟩
    have := runInv_countSum_le s hInv
    simp only [List.length_nil]
    omega
  | cons c cs ih =>
    intro s hInv hv
    obtain ⟨u1, hok, hInv1, hb1, hc1⟩ :=
      addResponse_step_inv s c hInv (hv c (List.mem_cons_self _ _))
    obtain ⟨u2, hrun, hInv2, hb2, hc2⟩ :=
      ih u1 hInv1 (fun d hd => hv d (List.mem_cons_of_mem _ hd))
    refine ⟨u2, ?_, hInv2, by rw [hb2, hb1], ?_⟩
    · unfold runCalls
      rw [hok]
      exact hrun
    · rw [hc2, hc1, hb1]
      have := runInv_countSum_le s hInv
      simp only [List.length_cons]
      omega

theorem construct_inv (args : MSHArgs) (entropy : Nat)
    (hm : args.method ≠ .fullRandom)
    (hok : validateConditionsCore args.conditions args.stairType = none) :
    ∃ s0, construct args entropy = .ok s0 ∧ RunInv s0 ∧
      countSum s0 = 0 ∧ budgetSum s0 = totalBudget args := by
  unfold construct
  rw [hok]
  have hm0 : (initState args entropy).multiMethod ≠ .fullRandom := hm
  have hcle : ∀ q ∈ (initState args entropy).staircases, q.trialCount ≤ q.nTrials := by
    intro q hq
    obtain ⟨cnd, _, hcq⟩ := List.mem_map.mp hq
    rw [← hcq]
    exact Nat.zero_le _
  have hpe : ∀ x ∈ (initState args entropy).currentPass, ∃ k, x = some k ∧
      k < (initState args entropy).staircases.length ∧
      ((initState args entropy).staircases.getD k defaultQuest).finished = false := by
    intro x hx
    cases hx
  have hnd : (initState args entropy).currentPass.Nodup := List.nodup_nil
  have hfin : (initState args entropy).finished = false := rfl
  obtain ⟨hst, hmm, hInv, _⟩ :=
    nextTrial_run_inv (initState args entropy) hm0 hcle hpe hnd hfin
  refine ⟨_, rfl, hInv, ?_, ?_⟩
  · unfold countSum
    rw [hst]
    show (((condObjs args.conditions).map (questOfCondition args)).map
      QuestHandler.trialCount).sum = 0
    rw [List.map_map]
    apply List.sum_eq_zero
    intro x hx
    obtain ⟨cnd, _, hcx⟩ := List.mem_map.mp hx
    rw [← hcx]
    rfl
  · unfold budgetSum
    rw [hst]
    show (((condObjs args.conditions).map (questOfCondition args)).map
      QuestHandler.nTrials).sum = totalBudget args
    rw [List.map_map]
    rfl

/-- C4 amended: under the SEQUENTIAL and RANDOM policies the coordinator
reports finished exactly when every staircase reports itself finished, and -
since the spec-modelled staircases never finish early - exactly once the
number of valid responses reaches the total trial budget summed over the
conditions (each condition's budget defaulting to the coordinator `nTrials`),
without the duplication factor; it is not finished before that point. -/
theorem termination_count (args : MSHArgs) (entropy : Nat) (calls : List RespCall)
    (hm : args.method ≠ Method.fullRandom)
    (hok : validateConditionsCore args.conditions args.stairType = none)
    (hv : ∀ c ∈ calls, c.response.valid = true) :
    ∃ s, runMSH args entropy calls = .ok s ∧
      (s.finished = true ↔ totalBudget args ≤ calls.length) ∧
      (s.finished = true ↔ ∀ q ∈ s.staircases, q.finished = true) := by
  obtain ⟨s0, hc0, hInv0, hcnt0, hbud0⟩ := construct_inv args entropy hm hok
  obtain ⟨u, hrun, hInvU, hbu, hcu⟩ := runCalls_inv calls s0 hInv0 hv
  refine ⟨u, ?_, ?_, ?_⟩
  · unfold runMSH
    rw [hc0]
    exact hrun
  · rw [runInv_finished_iff u hInvU, hcu, hbu, hcnt0, hbud0]
    omega
  · constructor
    · exact hInvU.fin_all
    · intro hall
      rw [runInv_finished_iff u hInvU]
      unfold countSum budgetSum
      apply sum_map_congr
      intro q hq
      have h1 := (questFinished_iff q).mp (hall q hq)
      have h2 := hInvU.counts_le q hq
      omega

/-- C4 witness: the section-8 scenario - two four-trial conditions under the
sequential policy - with exactly eight valid responses. -/
theorem termination_count_witness :
    ∃ s, runMSH argsScenario 0 (List.replicate 8 callOne) = .ok s ∧
      (s.finished = true ↔ totalBudget argsScenario ≤ (List.replicate 8 callOne).length) ∧
      (s.finished = true ↔ ∀ q ∈ s.staircases, q.finished = true) :=
  termination_count argsScenario 0 (List.replicate 8 callOne) (by decide) (by decide)
    (fun c hc => by rw [List.eq_of_mem_replicate hc]; rfl)

/-- C4 counterexample: with a single one-trial condition and duplication
factor 2 under the sequential policy, the claimed count of
`Σ trialBudget_i × duplicates = 2` valid responses is wrong - the coordinator
already reports finished after a single valid response. -/
theorem termination_count_counterexample :
    totalBudget argsSeqDup * argsSeqDup.duplicates = 2 ∧
    exceptFinished (runMSH argsSeqDup 0 [callOne]) = some true := by
  decide

/-- C6 witness: the trial key construction evaluated at the concrete
duplicate-tagged arguments. -/
theorem trialKey_construction_witness :
    (initState argsTagged 0).trialKey = builtTrialKey argsTagged 0 ∧
    builtTrialKey argsTagged 0 =
      repeatEveryElement (shuffle (baseTrialKey argsTagged) 0).1 argsTagged.duplicates ∧
    (shuffle (baseTrialKey argsTagged) 0).1.Perm (baseTrialKey argsTagged) ∧
    (builtTrialKey argsTagged 0).length = contribBudget argsTagged * argsTagged.duplicates ∧
    ∃ ys : List String, builtTrialKey argsTagged 0 =
      ys.flatMap (fun x => List.replicate argsTagged.duplicates x) :=
  trialKey_construction argsTagged 0



end MultiStairHandler

end PsychoData
